import Mathlib

/-!
# Executor selection in the intel_cpu plugin

A shallow embedding of `src/plugins/intel_cpu/src/nodes/executors/executor_factory.hpp`
(`fallback`, `ExecutorFactory::{filter, select, create, make, preconfigure,
getProperMemoryDescriptors}`) and of the fully-connected primitive of
`src/plugins/intel_cpu/src/nodes/executors/dnnl/dnnl_fullyconnected_primitive.cpp`, and
theorems about them.

Conventions of the embedding

* C++ exceptions (`OPENVINO_ASSERT`, `OPENVINO_THROW`) are values of `Err` inside `Except`.
* The collaborators that the header only includes (`ExecutorImplementation`, `GraphEmitter`,
  the registry returned by `getImplementations`, memory objects) are parameters.
* Mutable members of the factory are threaded explicitly; the calls the factory makes on
  executors (`impl.create`, `executor->update`) are recorded in a trace, and an executor is
  identified by the pointer handed out when it was created.
-/

namespace ov.intel_cpu

/-! ## Data model -/

/-- Enumeration `ExecutorType`, represented by the underlying integer of the enumerator. -/
abbrev ExecutorType := Nat

/-- Enumeration `OperationType`, represented by the underlying integer of the enumerator. -/
abbrev OperationType := Nat

/-- The type `MemoryArgs = std::unordered_map<int, MemoryPtr>`, as its list of entries. -/
abbrev MemoryArgs (Mem : Type) := List (Int × Mem)

/-- The type `MemoryDescArgs = std::unordered_map<int, MemoryDescPtr>`, as its list of entries. -/
abbrev MemoryDescArgs (Desc : Type) := List (Int × Desc)

/-- Errors: a failed `OPENVINO_ASSERT`, an `OPENVINO_THROW`, an exception raised by a
collaborator or the standard library, or an access outside a vector (undefined behaviour in
the source, kept apart here so that no theorem can rest on it). -/
inductive Err where
  | assertFailed (msg : String)
  | thrown (msg : String)
  | external (code : Nat)
  | outOfRange
  deriving DecidableEq

/-- The aggregate `executor::Config<Attrs>{descs, attrs, postOps}`. -/
structure Config (Attrs PostOps Desc : Type) where
  descs : MemoryDescArgs Desc
  attrs : Attrs
  postOps : PostOps

/-- The interface of `ExecutorImplementation<Attrs>` that the factory uses. The predicates are
the `std::function` members of an implementation; `create` is accounted for in `World`. -/
structure ExecutorImplementation (Attrs PostOps Desc Mem : Type) where
  name : String
  type : ExecutorType
  operationType : OperationType
  shapeAgnostic : Bool
  supports : Config Attrs PostOps Desc → Bool
  requiresFallback : Config Attrs PostOps Desc → Option (Config Attrs PostOps Desc)
  acceptsShapes : MemoryArgs Mem → Bool

section Selection

variable {Attrs PostOps Desc Mem : Type}

/-- The loop of `ExecutorFactory::filter` over the remaining registry entries; `suitable` is
`suitableImplementations` so far. -/
def filterLoop (config : Config Attrs PostOps Desc) (implementationPriority : String) :
    List (ExecutorImplementation Attrs PostOps Desc Mem) →
    List (ExecutorImplementation Attrs PostOps Desc Mem) →
    List (ExecutorImplementation Attrs PostOps Desc Mem)
  | [], suitable => suitable
  | implementation :: rest, suitable =>
    if !implementationPriority.isEmpty && implementation.name != implementationPriority then
      filterLoop config implementationPriority rest suitable
    else if !implementation.supports config then
      filterLoop config implementationPriority rest suitable
    else
      let pushed := suitable ++ [implementation]
      if implementation.shapeAgnostic then pushed
      else filterLoop config implementationPriority rest pushed

/-- The function `ExecutorFactory::filter`; `implementations` is what
`getImplementations<Attrs>()` returns. -/
def filter (implementations : List (ExecutorImplementation Attrs PostOps Desc Mem))
    (attrs : Attrs) (postOps : PostOps) (descs : MemoryDescArgs Desc)
    (implementationPriority : String) :
    List (ExecutorImplementation Attrs PostOps Desc Mem) :=
  filterLoop { descs := descs, attrs := attrs, postOps := postOps } implementationPriority
    implementations []

/-- The function `ExecutorFactory::select` over the candidate list `m_suitableImplementations`:
`std::find_if` followed by the assertion and `std::distance`. -/
def select (suitableImplementations : List (ExecutorImplementation Attrs PostOps Desc Mem))
    (memory : MemoryArgs Mem) : Except Err Nat :=
  let selectedImplementation :=
    suitableImplementations.findIdx (fun implementation =>
      implementation.shapeAgnostic || implementation.acceptsShapes memory)
  if selectedImplementation != suitableImplementations.length then
    .ok selectedImplementation
  else
    .error (.assertFailed "Failed to select an implemetation")

/-! ### The filter contract as the specification words it -/

/-- An implementation qualifies when its name equals the priority name, if that name is
non-empty, and it supports the config. -/
def qualifies (config : Config Attrs PostOps Desc) (priorityName : String)
    (impl : ExecutorImplementation Attrs PostOps Desc Mem) : Bool :=
  decide (priorityName ≠ "" → impl.name = priorityName) && impl.supports config

/-- The elements of a list up to and including the first one that satisfies `p`. -/
def cutAfterFirst {α : Type} (p : α → Bool) : List α → List α
  | [] => []
  | x :: xs => if p x then [x] else x :: cutAfterFirst p xs

/-- The specification of filter: the qualifying registry elements in registry order, cut off
right after the first shape-agnostic one. -/
def filterSpec (registry : List (ExecutorImplementation Attrs PostOps Desc Mem))
    (config : Config Attrs PostOps Desc) (priorityName : String) :
    List (ExecutorImplementation Attrs PostOps Desc Mem) :=
  cutAfterFirst (fun impl => impl.shapeAgnostic) (registry.filter (qualifies config priorityName))

end Selection

/-! ## The factory -/

/-- An `ExecutorPtr`, the identity of an executor object. -/
abbrev ExecutorPtr := Nat

/-- The calls the factory makes on implementations and executors. -/
inductive Event (Attrs PostOps Desc Mem Ctx : Type) where
  | create (impl : ExecutorImplementation Attrs PostOps Desc Mem) (attrs : Attrs)
      (postOps : PostOps) (memory : MemoryArgs Mem) (context : Ctx) (result : ExecutorPtr)
  | update (executor : ExecutorPtr) (memory : MemoryArgs Mem)

/-- The trace of calls made so far, oldest first. -/
abbrev World (Attrs PostOps Desc Mem Ctx : Type) := List (Event Attrs PostOps Desc Mem Ctx)

/-- The members of `ExecutorFactory<Attrs, NodeT>`; `m_executors` is the `std::map` from
`(ExecutorType, OperationType)` to `ExecutorPtr`, as its list of entries. -/
structure ExecutorFactory (Attrs PostOps Desc Mem Ctx : Type) where
  m_attrs : Attrs
  m_postOps : PostOps
  m_context : Ctx
  m_suitableImplementations : List (ExecutorImplementation Attrs PostOps Desc Mem)
  m_implementationRequiresFallback : List Bool
  m_executors : List ((ExecutorType × OperationType) × ExecutorPtr)

/-- What a member function leaves behind: its return value or exception, and the factory
and the trace afterwards (an exception does not undo the writes made before it). -/
structure Outcome (Attrs PostOps Desc Mem Ctx α : Type) where
  result : Except Err α
  factory : ExecutorFactory Attrs PostOps Desc Mem Ctx
  world : World Attrs PostOps Desc Mem Ctx

/-- The interface of `GraphEmitter<Attrs>` (graph_emitter.hpp) that `fallback` uses: the
constructor and each member function either fails or yields the next emitter state. -/
structure GraphEmitter (Attrs PostOps Desc Mem Ctx G : Type) where
  construct : MemoryDescArgs Desc → Attrs → PostOps → MemoryArgs Mem → Ctx → String → Except Err G
  createGraph : G → MemoryDescArgs Desc → Attrs → PostOps → Ctx → Except Err G
  ensureAttrsMatch : G → Except Err G
  ensureSrcDescsMatch : G → Except Err G
  ensureDstDescsMatch : G → Except Err G
  ensurePostOpsMatch : G → Except Err G
  emit : G → Except Err ExecutorPtr

section Factory

variable {Attrs PostOps Desc Mem Ctx G : Type}

/-- The initializer of the local `graphExecutor` in `fallback`: the emitter is constructed,
the graph is created from the fallback config, the four checks run, and the graph is emitted. -/
def graphExecutor (emitter : GraphEmitter Attrs PostOps Desc Mem Ctx G)
    (config fallbackConfig : Config Attrs PostOps Desc) (memory : MemoryArgs Mem)
    (context : Ctx) (name : String) : Except Err ExecutorPtr := do
  let graphEmitter ← emitter.construct config.descs config.attrs config.postOps memory context name
  let created ← emitter.createGraph graphEmitter fallbackConfig.descs fallbackConfig.attrs
    fallbackConfig.postOps context
  let attrsChecked ← emitter.ensureAttrsMatch created
  let srcChecked ← emitter.ensureSrcDescsMatch attrsChecked
  let dstChecked ← emitter.ensureDstDescsMatch srcChecked
  let postOpsChecked ← emitter.ensurePostOpsMatch dstChecked
  emitter.emit postOpsChecked

/-- The free function `fallback`: builds and checks the graph executor, discards it, and
throws. -/
def fallback (emitter : GraphEmitter Attrs PostOps Desc Mem Ctx G)
    (config fallbackConfig : Config Attrs PostOps Desc) (memory : MemoryArgs Mem)
    (context : Ctx) (name : String) : Except Err ExecutorPtr :=
  match graphExecutor emitter config fallbackConfig memory context name with
  | .error e => .error e
  | .ok _ => .error (Err.thrown "Fallback logic is not implemented yet")

/-- The constructor `ExecutorFactory::ExecutorFactory`; `implementations` is what
`getImplementations<Attrs>()` returns. -/
def ExecutorFactory.ctor (implementations : List (ExecutorImplementation Attrs PostOps Desc Mem))
    (attrs : Attrs) (postOps : PostOps) (context : Ctx) (descriptors : MemoryDescArgs Desc)
    (implementationPriority : String) : ExecutorFactory Attrs PostOps Desc Mem Ctx :=
  let suitable := filter implementations attrs postOps descriptors implementationPriority
  { m_attrs := attrs
    m_postOps := postOps
    m_context := context
    m_suitableImplementations := suitable
    m_implementationRequiresFallback := List.replicate suitable.length true
    m_executors := [] }

/-- The statement `map[key] = value` on an `unordered_map`. -/
def assign {V : Type} : List (Int × V) → Int → V → List (Int × V)
  | [], key, value => [(key, value)]
  | (k, v) :: rest, key, value =>
    if k = key then (key, value) :: rest else (k, v) :: assign rest key value

/-- The function `ExecutorFactory::memoryDescsFromMemory`; `getDescPtr` is the accessor
of a memory object. -/
def memoryDescsFromMemory (getDescPtr : Mem → Desc) (memory : MemoryArgs Mem) :
    MemoryDescArgs Desc :=
  memory.foldl (fun memoryDescs mem => assign memoryDescs mem.1 (getDescPtr mem.2)) []

/-- The call `std::transform(first, last, d_first, op)`: the results overwrite the first
elements of the destination, which must be long enough. -/
def transform {α β : Type} (src : List α) (dst : List β) (op : α → β) : Option (List β) :=
  if src.length ≤ dst.length then some (src.map op ++ dst.drop src.length) else none

/-- Modelled from the spec: the `create` member of `ExecutorImplementation`
(executor_implementation.hpp is not among the sources at hand) is "a factory method producing
an executor instance". Each call yields a new executor, identified by the position of the call
in the trace, and is recorded with its arguments. -/
def implCreate (w : World Attrs PostOps Desc Mem Ctx)
    (impl : ExecutorImplementation Attrs PostOps Desc Mem) (attrs : Attrs) (postOps : PostOps)
    (memory : MemoryArgs Mem) (context : Ctx) : ExecutorPtr × World Attrs PostOps Desc Mem Ctx :=
  (w.length, w ++ [Event.create impl attrs postOps memory context w.length])

/-- The call `executor->update(memory)`, recorded in the trace. -/
def executorUpdate (w : World Attrs PostOps Desc Mem Ctx) (executor : ExecutorPtr)
    (memory : MemoryArgs Mem) : World Attrs PostOps Desc Mem Ctx :=
  w ++ [Event.update executor memory]

/-- The function `ExecutorFactory::create`. -/
def create (f : ExecutorFactory Attrs PostOps Desc Mem Ctx) (w : World Attrs PostOps Desc Mem Ctx)
    (impl : ExecutorImplementation Attrs PostOps Desc Mem) (memory : MemoryArgs Mem)
    (context : Ctx) :
    ExecutorPtr × ExecutorFactory Attrs PostOps Desc Mem Ctx × World Attrs PostOps Desc Mem Ctx :=
  let executorId := (impl.type, impl.operationType)
  match f.m_executors.lookup executorId with
  | some executor => (executor, f, w)
  | none =>
    let made := implCreate w impl f.m_attrs f.m_postOps memory context
    (made.1, { f with m_executors := f.m_executors ++ [(executorId, made.1)] }, made.2)

/-- The function `ExecutorFactory::make`. -/
def make (emitter : GraphEmitter Attrs PostOps Desc Mem Ctx G) (getDescPtr : Mem → Desc)
    (f : ExecutorFactory Attrs PostOps Desc Mem Ctx) (w : World Attrs PostOps Desc Mem Ctx)
    (memory : MemoryArgs Mem) : Outcome Attrs PostOps Desc Mem Ctx ExecutorPtr :=
  match select f.m_suitableImplementations memory with
  | .error e => ⟨.error e, f, w⟩
  | .ok implId =>
    match f.m_suitableImplementations[implId]?, f.m_implementationRequiresFallback[implId]? with
    | some impl, some requiresFallback =>
      let config : Config Attrs PostOps Desc :=
        ⟨memoryDescsFromMemory getDescPtr memory, f.m_attrs, f.m_postOps⟩
      match (if requiresFallback then impl.requiresFallback config else none) with
      | some fallbackConfig =>
        ⟨fallback emitter config fallbackConfig memory f.m_context impl.name, f, w⟩
      | none =>
        let created := create f w impl memory f.m_context
        ⟨.ok created.1, created.2.1, executorUpdate created.2.2 created.1 memory⟩
    | _, _ => ⟨.error .outOfRange, f, w⟩

/-- The function `ExecutorFactory::preconfigure`. -/
def preconfigure (emitter : GraphEmitter Attrs PostOps Desc Mem Ctx G) (getDescPtr : Mem → Desc)
    (f : ExecutorFactory Attrs PostOps Desc Mem Ctx) (w : World Attrs PostOps Desc Mem Ctx)
    (memory : MemoryArgs Mem) : Outcome Attrs PostOps Desc Mem Ctx Unit :=
  let config : Config Attrs PostOps Desc :=
    ⟨memoryDescsFromMemory getDescPtr memory, f.m_attrs, f.m_postOps⟩
  match transform f.m_suitableImplementations f.m_implementationRequiresFallback
      (fun impl => (impl.requiresFallback config).isSome) with
  | none => ⟨.error .outOfRange, f, w⟩
  | some flags =>
    let f1 := { f with m_implementationRequiresFallback := flags }
    match select f1.m_suitableImplementations memory with
    | .error e => ⟨.error e, f1, w⟩
    | .ok implId =>
      match f1.m_suitableImplementations[implId]?,
          f1.m_implementationRequiresFallback[implId]? with
      | some impl, some requiresFallback =>
        match (if requiresFallback then impl.requiresFallback config else none) with
        | some fallbackConfig =>
          match fallback emitter config fallbackConfig memory f1.m_context impl.name with
          | .error e => ⟨.error e, f1, w⟩
          | .ok _ =>
            let created := create f1 w impl memory f1.m_context
            ⟨.ok (), created.2.1, created.2.2⟩
        | none =>
          let created := create f1 w impl memory f1.m_context
          ⟨.ok (), created.2.1, created.2.2⟩
      | _, _ => ⟨.error .outOfRange, f1, w⟩

/-- The function `ExecutorFactory::getProperMemoryDescriptors`, a const member function:
factory and trace are handed back as they came. `front()` of an empty vector is an access
outside the vector. -/
def getProperMemoryDescriptors (f : ExecutorFactory Attrs PostOps Desc Mem Ctx)
    (w : World Attrs PostOps Desc Mem Ctx) (descriptors : MemoryDescArgs Desc) :
    Outcome Attrs PostOps Desc Mem Ctx (MemoryDescArgs Desc) :=
  match f.m_suitableImplementations.head? with
  | none => ⟨.error .outOfRange, f, w⟩
  | some impl =>
    let config : Config Attrs PostOps Desc := ⟨descriptors, f.m_attrs, f.m_postOps⟩
    match impl.requiresFallback config with
    | some fallbackConfig => ⟨.ok fallbackConfig.descs, f, w⟩
    | none => ⟨.ok config.descs, f, w⟩

/-- A call on the factory. -/
inductive Call (Mem : Type) where
  | preconfigure (memory : MemoryArgs Mem)
  | make (memory : MemoryArgs Mem)

/-- The factory and trace after one call, whether it returned or threw. -/
def step (emitter : GraphEmitter Attrs PostOps Desc Mem Ctx G) (getDescPtr : Mem → Desc)
    (s : ExecutorFactory Attrs PostOps Desc Mem Ctx × World Attrs PostOps Desc Mem Ctx)
    (call : Call Mem) :
    ExecutorFactory Attrs PostOps Desc Mem Ctx × World Attrs PostOps Desc Mem Ctx :=
  match call with
  | .preconfigure memory =>
    ((preconfigure emitter getDescPtr s.1 s.2 memory).factory,
      (preconfigure emitter getDescPtr s.1 s.2 memory).world)
  | .make memory =>
    ((make emitter getDescPtr s.1 s.2 memory).factory,
      (make emitter getDescPtr s.1 s.2 memory).world)

/-- The factory and trace after a sequence of calls. -/
def run (emitter : GraphEmitter Attrs PostOps Desc Mem Ctx G) (getDescPtr : Mem → Desc)
    (s : ExecutorFactory Attrs PostOps Desc Mem Ctx × World Attrs PostOps Desc Mem Ctx)
    (calls : List (Call Mem)) :
    ExecutorFactory Attrs PostOps Desc Mem Ctx × World Attrs PostOps Desc Mem Ctx :=
  calls.foldl (step emitter getDescPtr) s

/-- The `(executor, memory)` arguments of the `update` calls in a trace. -/
def updatesOf (w : World Attrs PostOps Desc Mem Ctx) : List (ExecutorPtr × MemoryArgs Mem) :=
  w.filterMap (fun e => match e with
    | .update executor memory => some (executor, memory)
    | .create _ _ _ _ _ _ => none)

/-- The `(type, operationType)` pairs of the implementations whose `create` was called in
a trace, one entry per call. -/
def createKeys (w : World Attrs PostOps Desc Mem Ctx) : List (ExecutorType × OperationType) :=
  w.filterMap (fun e => match e with
    | .create impl _ _ _ _ _ => some (impl.type, impl.operationType)
    | .update _ _ => none)

/-- Invariant of factory and trace: no pair was created twice, and every pair whose
implementation created an executor has an entry in the cache. -/
def CreatesCached (f : ExecutorFactory Attrs PostOps Desc Mem Ctx)
    (w : World Attrs PostOps Desc Mem Ctx) : Prop :=
  (createKeys w).Nodup ∧ ∀ key ∈ createKeys w, (f.m_executors.lookup key).isSome = true

/-- Invariant of factory and trace: every cached executor was created by a candidate
implementation with the pair it is cached under, from the attributes, post-ops and context of
the factory. -/
def CacheProvenance (f : ExecutorFactory Attrs PostOps Desc Mem Ctx)
    (w : World Attrs PostOps Desc Mem Ctx) : Prop :=
  ∀ key executor, f.m_executors.lookup key = some executor →
    ∃ impl ∈ f.m_suitableImplementations, ∃ memory,
      Event.create impl f.m_attrs f.m_postOps memory f.m_context executor ∈ w ∧
      (impl.type, impl.operationType) = key

end Factory

/-! ## Concrete instances -/

section Examples

/-- A memory descriptor for the examples: precision and dimensions. A memory object is
identified with its descriptor. -/
structure ExDesc where
  precision : String
  dims : List Nat
  deriving DecidableEq

/-- Memory arguments of a fully-connected node with the given batch: source under key 1
and destination under key 17. -/
def exMemory (batch : Nat) : MemoryArgs ExDesc :=
  [(1, ⟨"f32", [batch, 128]⟩), (17, ⟨"f32", [batch, 64]⟩)]

/-- Whether the entry under key 1 has leading dimension 1. -/
def batchIsOne (args : List (Int × ExDesc)) : Bool :=
  match args.lookup 1 with
  | some d => d.dims.head? == some 1
  | none => false

/-- A shape-sensitive implementation that accepts batch 1 only. -/
def implA : ExecutorImplementation Unit Unit ExDesc ExDesc :=
  { name := "A", type := 4, operationType := 0, shapeAgnostic := false
    supports := fun _ => true, requiresFallback := fun _ => none, acceptsShapes := batchIsOne }

/-- A shape-agnostic implementation. -/
def implB : ExecutorImplementation Unit Unit ExDesc ExDesc :=
  { name := "B", type := 6, operationType := 0, shapeAgnostic := true
    supports := fun _ => true, requiresFallback := fun _ => none, acceptsShapes := fun _ => false }

/-- A shape-sensitive implementation with the `(type, operationType)` pair of `implA` that
accepts every shape. -/
def implA2 : ExecutorImplementation Unit Unit ExDesc ExDesc :=
  { name := "A2", type := 4, operationType := 0, shapeAgnostic := false
    supports := fun _ => true, requiresFallback := fun _ => none, acceptsShapes := fun _ => true }

/-- A shape-agnostic implementation that requires a fallback unless the batch is 1. -/
def implF : ExecutorImplementation Unit Unit ExDesc ExDesc :=
  { name := "F", type := 4, operationType := 0, shapeAgnostic := true
    supports := fun _ => true
    requiresFallback := fun config => if batchIsOne config.descs then none else some config
    acceptsShapes := fun _ => false }

/-- A graph emitter whose every step succeeds. -/
def exEmitter : GraphEmitter Unit Unit ExDesc ExDesc Unit Unit :=
  { construct := fun _ _ _ _ _ _ => .ok ()
    createGraph := fun _ _ _ _ _ => .ok ()
    ensureAttrsMatch := fun _ => .ok ()
    ensureSrcDescsMatch := fun _ => .ok ()
    ensureDstDescsMatch := fun _ => .ok ()
    ensurePostOpsMatch := fun _ => .ok ()
    emit := fun _ => .ok 0 }

/-- The factory constructed over a registry for the batch-1 descriptors. -/
def exFactory (registry : List (ExecutorImplementation Unit Unit ExDesc ExDesc)) :
    ExecutorFactory Unit Unit ExDesc ExDesc Unit :=
  ExecutorFactory.ctor registry () () () (exMemory 1) ""

/-- The factory over `[implA, implA2]` and the trace after a make call for batch 1. -/
def exAfterBatchOne : ExecutorFactory Unit Unit ExDesc ExDesc Unit
    × World Unit Unit ExDesc ExDesc Unit :=
  step exEmitter id (exFactory [implA, implA2], []) (.make (exMemory 1))

/-- The factory over `[implF]` and the trace after a preconfigure call for batch 1. -/
def exAfterPreconfigure : ExecutorFactory Unit Unit ExDesc ExDesc Unit
    × World Unit Unit ExDesc ExDesc Unit :=
  step exEmitter id (exFactory [implF], []) (.preconfigure (exMemory 1))

/-- A shape-agnostic implementation that, unless the batch is 1, requires a fallback to the
batch-1 descriptors. -/
def implG : ExecutorImplementation Unit Unit ExDesc ExDesc :=
  { name := "G", type := 4, operationType := 0, shapeAgnostic := true
    supports := fun _ => true
    requiresFallback := fun config =>
      if batchIsOne config.descs then none else some { config with descs := exMemory 1 }
    acceptsShapes := fun _ => false }

/-- An implementation that supports no configuration. -/
def implN : ExecutorImplementation Unit Unit ExDesc ExDesc :=
  { name := "N", type := 4, operationType := 0, shapeAgnostic := true
    supports := fun _ => false, requiresFallback := fun _ => none, acceptsShapes := fun _ => true }

end Examples

/-! ## The fully-connected primitive

A shallow embedding of `src/plugins/intel_cpu/src/nodes/executors/dnnl/
dnnl_fullyconnected_primitive.cpp`: the cache key, the decompression predicate, the dummy
shapes and the data flow of `createShapeAgnosticData`. Values of type `size_t` are natural
numbers below `sizeModulus`, with subtraction wrapping around. -/

section Primitive

/-- The type `VectorDims = std::vector<size_t>`. -/
abbrev VectorDims := List Nat

/-- The number of values of `size_t`, `2 ^ 64`. -/
def sizeModulus : Nat := 18446744073709551616

/-- Subtraction of `size_t` values. -/
def sizeSub (a b : Nat) : Nat := (a + sizeModulus - b) % sizeModulus

/-- Element types: those the source names, and `other` for the remaining enumerators of
`ov::element::Type_t`. -/
inductive ElementType where
  | f32
  | bf16
  | u8
  | i8
  | nf4
  | u4
  | i4
  | other (code : Nat)
  deriving DecidableEq

/-- The variadic predicate `one_of(val, items...)`. -/
def one_of {α : Type} [DecidableEq α] (val : α) (items : List α) : Bool :=
  items.any (fun item => decide (val = item))

/-- The function `DnnlFCPrimitive::useWeightsDecompressionImpl`; `mayiuse_avx2` is the value
of `dnnl::impl::cpu::x64::mayiuse(avx2)` on the machine. -/
def useWeightsDecompressionImpl (mayiuse_avx2 : Bool) (inputType weightsType : ElementType) :
    Bool :=
  mayiuse_avx2 && one_of inputType [.f32, .bf16] && one_of weightsType [.u8, .nf4, .u4, .i4]

/-! ### The cache key -/

/-- A `DnnlMemoryDescCPtr`: null, or the address of a descriptor object. -/
abbrev DescPtr := Option Nat

/-- The struct `DnnlFCPrimitive::Key`; `A` is the type of `dnnl::primitive_attr`. -/
structure Key (A : Type) where
  src : DescPtr
  wei : DescPtr
  bias : DescPtr
  dst : DescPtr
  attr : A
  sparseWeights : Bool
  transposedWeights : Bool

/-- What the key operations take from oneDNN and from memory: the dnnl descriptor held by the
descriptor object at an address, equality of dnnl descriptors and of attributes, their
hashes, and `hash_combine` on the standard hash of the combined value. -/
structure Dnnl (D A : Type) where
  getDnnlDesc : Nat → D
  descEq : D → D → Bool
  attrEq : A → A → Bool
  get_md_hash : D → Nat
  get_attr_hash : A → Nat
  hash_combine : Nat → Nat → Nat

section KeyOps

variable {D A : Type}

/-- The body of the loop of `Key::hash`:
`if (ptr) seed = hash_combine(seed, get_md_hash(*ptr->getDnnlDesc().get()));`. -/
def hashStep (dnnl : Dnnl D A) (seed : Nat) (ptr : DescPtr) : Nat :=
  match ptr with
  | some p => dnnl.hash_combine seed (dnnl.get_md_hash (dnnl.getDnnlDesc p))
  | none => seed

/-- The function `DnnlFCPrimitive::Key::hash`. -/
def Key.hash (dnnl : Dnnl D A) (key : Key A) : Nat :=
  let seed := [key.src, key.wei, key.bias, key.dst].foldl (hashStep dnnl) 0
  let seed := dnnl.hash_combine seed (dnnl.get_attr_hash key.attr)
  let seed := dnnl.hash_combine seed key.sparseWeights.toNat
  dnnl.hash_combine seed key.transposedWeights.toNat

/-- One of the four guarded statements of `Key::operator==`:
`if (p != q) result = result && p && q && p->getDnnlDesc() == q->getDnnlDesc();`. -/
def descStep (dnnl : Dnnl D A) (result : Bool) (lhs rhs : DescPtr) : Bool :=
  if lhs != rhs then
    result && (match lhs, rhs with
      | some p, some q => dnnl.descEq (dnnl.getDnnlDesc p) (dnnl.getDnnlDesc q)
      | _, _ => false)
  else result

/-- The function `DnnlFCPrimitive::Key::operator==`. -/
def Key.eq (dnnl : Dnnl D A) (lhs rhs : Key A) : Bool :=
  let result := true
  let result := descStep dnnl result lhs.src rhs.src
  let result := descStep dnnl result lhs.wei rhs.wei
  let result := descStep dnnl result lhs.bias rhs.bias
  let result := descStep dnnl result lhs.dst rhs.dst
  result && dnnl.attrEq lhs.attr rhs.attr && (lhs.sparseWeights == rhs.sparseWeights) &&
    (lhs.transposedWeights == rhs.transposedWeights)

/-- Two descriptor pointers agree, in the words of the specification: both absent, or both
present with structurally equal dnnl descriptors, the same object counting as equal. -/
def sameDescriptor (dnnl : Dnnl D A) (lhs rhs : DescPtr) : Prop :=
  (lhs = none ∧ rhs = none) ∨
  ∃ p q, lhs = some p ∧ rhs = some q ∧
    (p = q ∨ dnnl.descEq (dnnl.getDnnlDesc p) (dnnl.getDnnlDesc q) = true)

end KeyOps

/-! ### Dummy shapes -/

/-- The loop `for (size_t i = 0; i < batchRank; i++) outputShape[i + startIdx] = inShape[i];`
of `makeDummyOutputDims`, from iteration `i` with `remaining` iterations to go. -/
def setBatchDims (inShape : VectorDims) (startIdx : Nat) :
    Nat → Nat → VectorDims → Except Err VectorDims
  | 0, _, outputShape => .ok outputShape
  | remaining + 1, i, outputShape =>
    if outputShape.length ≤ (i + startIdx) % sizeModulus then .error .outOfRange
    else
      match inShape[i]? with
      | none => .error .outOfRange
      | some dim =>
        setBatchDims inShape startIdx remaining (i + 1)
          (outputShape.set ((i + startIdx) % sizeModulus) dim)

/-- The function `makeDummyOutputDims`. -/
def makeDummyOutputDims (inShape wShape : VectorDims) (out_rank : Nat) : Except Err VectorDims :=
  let activationRank := inShape.length
  let channelRank := sizeSub wShape.length 1
  let outputShape := List.replicate out_rank 1
  if out_rank = 0 then .error .outOfRange
  else
    match wShape[0]? with
    | none => .error .outOfRange
    | some co =>
      let batchRank := sizeSub activationRank channelRank
      let startIdx := sizeSub (sizeSub out_rank batchRank) 1
      setBatchDims inShape startIdx batchRank 0 (outputShape.set (out_rank - 1) co)

/-- Every index used by `makeDummyOutputDims` is in range: `wShape[0]`, the last element of
the output, and `outputShape[i + startIdx]` and `inShape[i]` for every `i < batchRank`. -/
def indicesInRange (inShape wShape : VectorDims) (out_rank : Nat) : Prop :=
  0 < wShape.length ∧ 0 < out_rank ∧
  ∀ i, i < sizeSub inShape.length (sizeSub wShape.length 1) →
    (i + sizeSub (sizeSub out_rank (sizeSub inShape.length (sizeSub wShape.length 1))) 1)
        % sizeModulus < out_rank ∧
    i < inShape.length

/-- Every index that `makeDummyOutputDims` writes at is in range: the last element of the
output and `outputShape[i + startIdx]` for every `i < batchRank`. -/
def writesInRange (inShape wShape : VectorDims) (out_rank : Nat) : Prop :=
  0 < out_rank ∧
  ∀ i, i < sizeSub inShape.length (sizeSub wShape.length 1) →
    (i + sizeSub (sizeSub out_rank (sizeSub inShape.length (sizeSub wShape.length 1))) 1)
        % sizeModulus < out_rank

/-- One of the four subtractions of `makeDummyOutputDims` (`wShape.size() - 1`,
`activationRank - channelRank`, `out_rank - batchRank`, `... - 1`) has a minuend smaller
than its subtrahend. -/
def subtractionWraps (inShape wShape : VectorDims) (out_rank : Nat) : Prop :=
  wShape.length < 1 ∨
  inShape.length < sizeSub wShape.length 1 ∨
  out_rank < sizeSub inShape.length (sizeSub wShape.length 1) ∨
  sizeSub out_rank (sizeSub inShape.length (sizeSub wShape.length 1)) < 1

/-- The precondition of `makeDummyOutputDims`, in unbounded arithmetic: `wShape` is
non-empty, `out_rank >= 1`, `inShape.size() >= wShape.size() - 1` and
`out_rank >= batchRank + 1` for `batchRank = inShape.size() - (wShape.size() - 1)`. -/
def dummyOutputPrecondition (inShape wShape : VectorDims) (out_rank : Nat) : Prop :=
  wShape ≠ [] ∧ 1 ≤ out_rank ∧ wShape.length - 1 ≤ inShape.length ∧
  (inShape.length - (wShape.length - 1)) + 1 ≤ out_rank

/-- Modelled from the spec: the class `Shape` (cpu_shape.h is not among the sources at hand),
a shape that "may contain dynamic/unknown dimensions": a lower and an upper bound for every
dimension, a dimension being static when its bounds coincide. -/
structure Shape where
  minDims : VectorDims
  maxDims : VectorDims
  deriving DecidableEq

/-- The constructor `Shape(const VectorDims&)` of a static shape. -/
def Shape.ofDims (dims : VectorDims) : Shape := ⟨dims, dims⟩

/-- The accessor `Shape::getRank`. -/
def Shape.getRank (shape : Shape) : Nat := shape.minDims.length

/-- The predicate `Shape::isDynamic`. -/
def Shape.isDynamic (shape : Shape) : Bool := shape.minDims != shape.maxDims

/-- The accessor `Shape::getStaticDims`, which throws on a dynamic shape. -/
def Shape.getStaticDims (shape : Shape) : Except Err VectorDims :=
  if shape.isDynamic then .error (.thrown "Cannot get dims for non static shape")
  else .ok shape.minDims

/-- Modelled from the spec: `MemoryDescUtils::makeDummyShape` (cpu_memory_desc_utils.cpp is
not among the sources at hand) yields "a synthesized, representative static shape" in which
"batch-like dimensions are copied from the input's bounds": a static dimension is kept, and a
dynamic one becomes the dummy value clamped to its bounds. -/
def makeDummyShape (dummyVal : Nat) (shape : Shape) : Shape :=
  Shape.ofDims (List.zipWith (fun lo hi => if lo = hi then lo else min hi (max lo dummyVal))
    shape.minDims shape.maxDims)

/-- The statement `dims.back() = value`. -/
def setBack (dims : VectorDims) (value : Nat) : Except Err VectorDims :=
  if dims.length = 0 then .error .outOfRange else .ok (dims.set (dims.length - 1) value)

/-- The function `makeDummyInputDims`; `dummyVal` is the default argument of
`makeDummyShape`. -/
def makeDummyInputDims (dummyVal : Nat) (inShape wShape : Shape) : Except Err VectorDims := do
  let weightDims ← wShape.getStaticDims
  match weightDims.getLast? with
  | none => .error .outOfRange
  | some back =>
    let inMinDims ← setBack inShape.minDims back
    let inMaxDims ← setBack inShape.maxDims back
    (makeDummyShape dummyVal ⟨inMinDims, inMaxDims⟩).getStaticDims

/-- The function template `normalizeDimsTo2D` at an unsigned element type with `modulus`
values (`size_t` in `createPrimitiveAttrs`): the product of all elements but the last, and
the last element. -/
def normalizeDimsTo2D (modulus : Nat) (dims : List Nat) : Except Err (List Nat) :=
  match dims.getLast? with
  | none => .error .outOfRange
  | some last => .ok [dims.dropLast.foldl (fun acc dim => (acc * dim) % modulus) (1 % modulus), last]

/-- The value of an integer in `int64_t`, two's complement on 64 bits. -/
def wrapInt64 (value : Int) : Int :=
  (value + 9223372036854775808) % 18446744073709551616 - 9223372036854775808

/-- The operation `std::multiplies<int64_t>`. An overflow of signed multiplication is
undefined behaviour in C++; the model takes the two's-complement result that the compiled
code computes. -/
def mulInt64 (lhs rhs : Int) : Int := wrapInt64 (lhs * rhs)

/-- The function template `normalizeDimsTo2D` at the signed element type
`dnnl::memory::dim` (`int64_t`), at which `normalizeDescriptor` calls it. -/
def normalizeDimsTo2DInt64 (dims : List Int) : Except Err (List Int) :=
  match dims.getLast? with
  | none => .error .outOfRange
  | some last => .ok [dims.dropLast.foldl mulInt64 1, last]

/-- The function `normalizeDescriptor`; `get_dims` and `reshape` are the members of
`dnnl::memory::desc`, whose dims are signed 64-bit integers, the latter failing when oneDNN
rejects the new dims. -/
def normalizeDescriptor {Desc : Type} (get_dims : Desc → List Int)
    (reshape : Desc → List Int → Except Err Desc) (desc : Desc) : Except Err Desc :=
  let dims := get_dims desc
  if dims.length > 2 then
    match normalizeDimsTo2DInt64 dims with
    | .error e => .error e
    | .ok normalized => reshape desc normalized
  else .ok desc

/-! ### `createShapeAgnosticData` -/

/-- Modelled from the spec: a memory descriptor "describes one tensor operand: element data
type, shape (may contain dynamic/unknown dimensions)" (the descriptor classes are not among
the sources at hand); the layout plays no part in the functions embedded here. A memory
object is identified with its descriptor. -/
structure MemoryDesc where
  precision : ElementType
  shape : Shape
  deriving DecidableEq

/-- The member `MemoryDesc::cloneWithNewDims`: the same descriptor with a static shape. -/
def MemoryDesc.cloneWithNewDims (desc : MemoryDesc) (dims : VectorDims) : MemoryDesc :=
  { desc with shape := Shape.ofDims dims }

/-- The argument key `ARG_SRC` (`DNNL_ARG_SRC`). -/
def ARG_SRC : Int := 1

/-- The argument key `ARG_WEI` (`DNNL_ARG_WEIGHTS`). -/
def ARG_WEI : Int := 33

/-- The argument key `ARG_BIAS` (`DNNL_ARG_BIAS`). -/
def ARG_BIAS : Int := 41

/-- The argument key `ARG_DST` (`DNNL_ARG_DST`). -/
def ARG_DST : Int := 17

/-- The call `memory.at(key)`, which throws `std::out_of_range` on a missing key. -/
def memoryAt (memory : MemoryArgs MemoryDesc) (key : Int) : Except Err MemoryDesc :=
  match memory.lookup key with
  | some mem => .ok mem
  | none => .error (.external 0)

/-- The fields of `FCAttrs` that the source reads; the scales are kept as opaque values and
the decompression memories as addresses. -/
structure FCAttrs where
  withBias : Bool
  weightsNonTransposed : Bool
  sparseWeights : Bool
  dequantizationScales : List Int
  decompressionMultiplyPtr : Option Nat
  decompressionSubtractPtr : Option Nat

/-- What `createPrimitiveAttrs` hands to the `DnnlPostOpsComposer` before `compose()`: the
constructor arguments (the engine apart) and the appended decompression scales and zero
points, each with its transposition flag. -/
structure PostOpsComposer (PostOps : Type) where
  postOps : PostOps
  outputDims : VectorDims
  indexOfOutputChannelDim : Nat
  isINT8 : Bool
  weiScaleMaskPerChannel : Nat
  dequantizationScales : List Int
  withBias : Bool
  outputDataType : ElementType
  decompressionScales : Option (Nat × Bool)
  decompressionZeroPoints : Option (Nat × Bool)

/-- The arguments `createShapeAgnosticData` hands to `createPrimitiveDesc` (engine and
implementation priorities apart). -/
structure PrimitiveDescArgs (Fused : Type) where
  inputDesc : MemoryDesc
  weightDesc : MemoryDesc
  biasDesc : Option MemoryDesc
  outputDesc : MemoryDesc
  attr : Fused
  useSparseWeights : Bool
  useWeightsDecompression : Bool

/-- What a call of `createShapeAgnosticData` amounts to: the composer state that was composed,
the composed attributes stored in the returned `DnnlShapeAgnosticData`, and the primitive
descriptor request used to pack the weights, if one was made. -/
structure ShapeAgnosticData (PostOps Fused : Type) where
  composer : PostOpsComposer PostOps
  postOpData : Fused
  primitiveDesc : Option (PrimitiveDescArgs Fused)

/-- The collaborators of `createShapeAgnosticData`: `DnnlPostOpsComposer::compose`, whether
oneDNN yields a primitive descriptor for a request, `getCurrentMemSize` of a descriptor,
`mayiuse(avx2)` and the default dummy value of `makeDummyShape`. -/
structure PrimitiveEnv (PostOps Fused : Type) where
  compose : PostOpsComposer PostOps → Fused
  primitiveDescCreated : PrimitiveDescArgs Fused → Bool
  getCurrentMemSize : MemoryDesc → Nat
  mayiuse_avx2 : Bool
  dummyVal : Nat

section ShapeAgnostic

variable {PostOps Fused : Type}

/-- The composer of `createPrimitiveAttrs` right before `compose()`. -/
def postOpsComposer (attrs : FCAttrs) (postOps : PostOps) (memory : MemoryArgs MemoryDesc) :
    Except Err (PostOpsComposer PostOps) := do
  let srcDesc ← memoryAt memory ARG_SRC
  let weiDesc ← memoryAt memory ARG_WEI
  let dstDesc ← memoryAt memory ARG_DST
  let originalDims := dstDesc.shape.minDims
  let dims ← normalizeDimsTo2D sizeModulus originalDims
  let isINT8 := one_of srcDesc.precision [.u8, .i8] && decide (weiDesc.precision = .i8)
  let outputDataType := dstDesc.precision
  .ok { postOps := postOps
        outputDims := dims
        indexOfOutputChannelDim := sizeSub dims.length 1
        isINT8 := isINT8
        weiScaleMaskPerChannel := 1
        dequantizationScales := attrs.dequantizationScales
        withBias := attrs.withBias
        outputDataType := outputDataType
        decompressionScales :=
          attrs.decompressionMultiplyPtr.map (fun ptr => (ptr, !attrs.weightsNonTransposed))
        decompressionZeroPoints :=
          attrs.decompressionSubtractPtr.map (fun ptr => (ptr, !attrs.weightsNonTransposed)) }

/-- The function `createPrimitiveAttrs`. -/
def createPrimitiveAttrs (env : PrimitiveEnv PostOps Fused) (attrs : FCAttrs)
    (postOps : PostOps) (memory : MemoryArgs MemoryDesc) : Except Err Fused :=
  (postOpsComposer attrs postOps memory).map env.compose

/-- The dynamic branch of `createShapeAgnosticData`: the dummy input dims and the dummy
output dims. -/
def dummyDims (dummyVal : Nat) (inShape wShape : Shape) (dstRank : Nat) :
    Except Err (VectorDims × VectorDims) := do
  let inDymmyDims ← makeDummyInputDims dummyVal inShape wShape
  let weightDims ← wShape.getStaticDims
  let outDymmyDims ← makeDummyOutputDims inDymmyDims weightDims dstRank
  .ok (inDymmyDims, outDymmyDims)

/-- The function `DnnlFCPrimitive::createShapeAgnosticData`. Its call of
`createPrimitiveAttrs` is written as the two steps of that function, building the composer
and composing, so that the composer can be reported. -/
def createShapeAgnosticData (env : PrimitiveEnv PostOps Fused) (attrs : FCAttrs)
    (postOps : PostOps) (memory : MemoryArgs MemoryDesc) (cacheWeights : Bool) :
    Except Err (ShapeAgnosticData PostOps Fused) := do
  let srcDesc ← memoryAt memory ARG_SRC
  let weiDesc ← memoryAt memory ARG_WEI
  let dstDesc ← memoryAt memory ARG_DST
  let composer ← postOpsComposer attrs postOps memory
  let postOpData := env.compose composer
  if !cacheWeights then
    .ok ⟨composer, postOpData, none⟩
  else
    let descs ←
      if srcDesc.shape.isDynamic then
        (dummyDims env.dummyVal srcDesc.shape weiDesc.shape dstDesc.shape.getRank).map
          (fun dims => (srcDesc.cloneWithNewDims dims.1, dstDesc.cloneWithNewDims dims.2))
      else .ok (srcDesc, dstDesc)
    let useWeightsDecompression :=
      useWeightsDecompressionImpl env.mayiuse_avx2 descs.1.precision weiDesc.precision
    let biasMemory ← memoryAt memory ARG_BIAS
    let biaDesc := if env.getCurrentMemSize biasMemory != 0 then some biasMemory else none
    let request : PrimitiveDescArgs Fused :=
      ⟨descs.1, weiDesc, biaDesc, descs.2, postOpData, attrs.sparseWeights,
        useWeightsDecompression⟩
    if env.primitiveDescCreated request then .ok ⟨composer, postOpData, some request⟩
    else .error (.assertFailed "Failed to create inner_product primitive descriptor")

end ShapeAgnostic

end Primitive

section PrimitiveExamples

/-- A concrete oneDNN for the examples: the descriptor at an address is the list of dims
`[address / 2, 128]`, so that addresses `2 * n` and `2 * n + 1` hold equal descriptors;
descriptors and attributes are compared and hashed by content, and `hash_combine` is the
formula of the boost library on 64 bits. -/
def exDnnl : Dnnl (List Nat) Nat :=
  { getDnnlDesc := fun address => [address / 2, 128]
    descEq := fun a b => a == b
    attrEq := fun a b => a == b
    get_md_hash := fun desc => desc.foldl (fun acc dim => (31 * acc + dim) % sizeModulus) 7
    get_attr_hash := fun attr => attr % sizeModulus
    hash_combine := fun seed value =>
      Nat.xor seed ((value + 2654435769 + seed * 64 + seed / 4) % sizeModulus) }

/-- A key over the descriptor objects at the given source and weights addresses, without
bias. -/
def exKey (src wei : Nat) : Key Nat :=
  { src := some src, wei := some wei, bias := none, dst := some 6, attr := 5,
    sparseWeights := false, transposedWeights := true }

/-- A dynamic descriptor of the given precision with the given bounds. -/
def exDesc (minDims maxDims : VectorDims) : MemoryDesc :=
  { precision := .f32, shape := ⟨minDims, maxDims⟩ }

/-- Memory arguments of a fully-connected node with weights `[64, 128]`, an absent bias,
a source `[*, -1, 128]` and a destination `[*, -1, 64]`, the unknown dimensions ranging over
all of `size_t`. -/
def exDynamicMemory : MemoryArgs MemoryDesc :=
  [(ARG_SRC, exDesc [0, 0, 128] [18446744073709551615, 18446744073709551615, 128]),
   (ARG_WEI, exDesc [64, 128] [64, 128]),
   (ARG_BIAS, exDesc [] []),
   (ARG_DST, exDesc [0, 0, 64] [18446744073709551615, 18446744073709551615, 64])]

/-- Attributes of a plain fully-connected node. -/
def exAttrs : FCAttrs :=
  { withBias := false, weightsNonTransposed := false, sparseWeights := false,
    dequantizationScales := [], decompressionMultiplyPtr := none,
    decompressionSubtractPtr := none }

/-- An environment in which composing yields the output dims handed to the composer, every
primitive descriptor request succeeds, the memory size of a descriptor is the product of its
lower bounds, AVX2 is present and the dummy value is 64. -/
def exEnv : PrimitiveEnv Unit VectorDims :=
  { compose := fun composer => composer.outputDims
    primitiveDescCreated := fun _ => true
    getCurrentMemSize := fun desc =>
      if desc.shape.minDims.length = 0 then 0 else desc.shape.minDims.foldl (· * ·) 1
    mayiuse_avx2 := true
    dummyVal := 64 }

/-- A dnnl descriptor for the examples: a data type tag and the dims. -/
structure ExDnnlDesc where
  dataType : Nat
  dims : List Int
  deriving DecidableEq

/-- Reshaping an example descriptor replaces its dims. -/
def exReshape (desc : ExDnnlDesc) (dims : List Int) : Except Err ExDnnlDesc :=
  .ok { desc with dims := dims }

end PrimitiveExamples

/-! ## Theorems -/

section SelectionTheorems

variable {Attrs PostOps Desc Mem : Type}

/-! ### Facts about `cutAfterFirst` -/

theorem cutAfterFirst_sublist {α : Type} (p : α → Bool) (l : List α) :
    (cutAfterFirst p l).Sublist l := by
  induction l with
  | nil => simp [cutAfterFirst]
  | cons x xs ih =>
    unfold cutAfterFirst
    split
    · exact List.Sublist.cons₂ x (List.nil_sublist xs)
    · exact List.Sublist.cons₂ x ih

theorem cutAfterFirst_eq_nil {α : Type} (p : α → Bool) (l : List α) :
    cutAfterFirst p l = [] ↔ l = [] := by
  cases l with
  | nil => simp [cutAfterFirst]
  | cons x xs =>
    unfold cutAfterFirst
    split <;> simp

theorem cutAfterFirst_append {α : Type} (p : α → Bool) (pre rest : List α)
    (h : ∀ x ∈ pre, p x = false) :
    cutAfterFirst p (pre ++ rest) = pre ++ cutAfterFirst p rest := by
  induction pre with
  | nil => simp
  | cons x xs ih =>
    have hx : p x = false := h x (List.mem_cons_self x xs)
    have hxs : ∀ y ∈ xs, p y = false := fun y hy => h y (List.mem_cons_of_mem x hy)
    simp [cutAfterFirst, hx, ih hxs]

theorem cutAfterFirst_stops {α : Type} (p : α → Bool) (l pre post : List α) (x : α)
    (h : cutAfterFirst p l = pre ++ x :: post) (hx : p x = true) : post = [] := by
  induction l generalizing pre with
  | nil => simp [cutAfterFirst] at h
  | cons y ys ih =>
    unfold cutAfterFirst at h
    split at h
    · cases pre with
      | nil => simp at h; exact h.2
      | cons z zs => simp at h
    · rename_i hy
      cases pre with
      | nil =>
        simp at h
        rw [h.1] at hy
        exact absurd hx hy
      | cons z zs =>
        simp at h
        exact ih zs h.2

/-! ### `filter` -/

theorem qualifies_iff (config : Config Attrs PostOps Desc) (priorityName : String)
    (impl : ExecutorImplementation Attrs PostOps Desc Mem) :
    qualifies config priorityName impl = true ↔
      (priorityName ≠ "" → impl.name = priorityName) ∧ impl.supports config = true := by
  simp only [qualifies, Bool.and_eq_true, decide_eq_true_eq]

theorem isEmpty_eq_false_iff (s : String) : s.isEmpty = false ↔ s ≠ "" := by
  rw [ne_eq, ← String.isEmpty_iff]
  cases s.isEmpty <;> simp

theorem nameSkipped_iff (priorityName name : String) :
    (!priorityName.isEmpty && name != priorityName) = true ↔
      ¬ (priorityName ≠ "" → name = priorityName) := by
  simp only [Bool.and_eq_true, Bool.not_eq_true', isEmpty_eq_false_iff, bne_iff_ne, ne_eq,
    Classical.not_imp]

theorem filterLoop_eq (config : Config Attrs PostOps Desc) (priorityName : String)
    (l acc : List (ExecutorImplementation Attrs PostOps Desc Mem)) :
    filterLoop config priorityName l acc = acc ++ filterSpec l config priorityName := by
  induction l generalizing acc with
  | nil => simp [filterLoop, filterSpec, cutAfterFirst]
  | cons x xs ih =>
    unfold filterLoop
    by_cases hname : priorityName ≠ "" → x.name = priorityName
    · have h1 : (!priorityName.isEmpty && x.name != priorityName) = false := by
        rw [← Bool.not_eq_true, nameSkipped_iff]
        exact not_not.2 hname
      by_cases hsup : x.supports config = true
      · have hq : qualifies config priorityName x = true := (qualifies_iff _ _ _).2 ⟨hname, hsup⟩
        by_cases hag : x.shapeAgnostic = true
        · simp [h1, hsup, hag, filterSpec, hq, cutAfterFirst]
        · simp [h1, hsup, hag, filterSpec, hq, cutAfterFirst, ih]
      · have hq : qualifies config priorityName x = false := by
          rw [← Bool.not_eq_true, qualifies_iff]
          exact fun h => hsup h.2
        simp [h1, hsup, filterSpec, hq, ih]
    · have hq : qualifies config priorityName x = false := by
        rw [← Bool.not_eq_true, qualifies_iff]
        exact fun h => hname h.1
      have h1 : (!priorityName.isEmpty && x.name != priorityName) = true :=
        (nameSkipped_iff _ _).2 hname
      simp [h1, filterSpec, hq, ih]

/-- Claim C1. For every registry, config and priority name, filter returns exactly the
qualifying registry elements (name equal to the priority name when that name is non-empty, and
supporting the config), in registry order, cut off right after the first shape-agnostic one.
In particular the result is a sublist of the registry, every returned element qualifies, no
qualifying element ranked before the first qualifying shape-agnostic one is missing, and the
result is empty iff no registry element qualifies. -/
theorem filter_contract (implementations : List (ExecutorImplementation Attrs PostOps Desc Mem))
    (attrs : Attrs) (postOps : PostOps) (descs : MemoryDescArgs Desc) (priorityName : String) :
    filter implementations attrs postOps descs priorityName
        = filterSpec implementations ⟨descs, attrs, postOps⟩ priorityName
    ∧ (filter implementations attrs postOps descs priorityName).Sublist implementations
    ∧ (∀ x ∈ filter implementations attrs postOps descs priorityName,
        (priorityName ≠ "" → x.name = priorityName) ∧ x.supports ⟨descs, attrs, postOps⟩ = true)
    ∧ (∀ ranked rest, implementations = ranked ++ rest →
        (∀ y ∈ ranked, ¬ (qualifies ⟨descs, attrs, postOps⟩ priorityName y = true
            ∧ y.shapeAgnostic = true)) →
        ∀ x ∈ ranked, qualifies ⟨descs, attrs, postOps⟩ priorityName x = true →
          x ∈ filter implementations attrs postOps descs priorityName)
    ∧ (filter implementations attrs postOps descs priorityName = [] ↔
        ∀ x ∈ implementations, qualifies ⟨descs, attrs, postOps⟩ priorityName x = false) := by
  have heq : filter implementations attrs postOps descs priorityName
      = filterSpec implementations ⟨descs, attrs, postOps⟩ priorityName := by
    simp [filter, filterLoop_eq]
  refine ⟨heq, ?_, ?_, ?_, ?_⟩
  · rw [heq]
    exact (cutAfterFirst_sublist _ _).trans (List.filter_sublist _)
  · intro x hx
    rw [heq] at hx
    have hmem := (cutAfterFirst_sublist _ _).subset hx
    exact (qualifies_iff _ _ _).1 (List.mem_filter.1 hmem).2
  · intro ranked rest hsplit hno x hx hq
    rw [heq, hsplit, filterSpec, List.filter_append, cutAfterFirst_append]
    · exact List.mem_append_left _ (List.mem_filter.2 ⟨hx, hq⟩)
    · intro y hy
      have hy2 := List.mem_filter.1 hy
      have := hno y hy2.1
      simp only [not_and, Bool.not_eq_true] at this
      exact this hy2.2
  · rw [heq, filterSpec, cutAfterFirst_eq_nil, List.filter_eq_nil_iff]
    simp

/-- Claim C2. The list returned by filter holds at most one shape-agnostic implementation, and
when it holds one it is the last element: nothing follows an accepted shape-agnostic
implementation. For a registry `[A, B]` with `A` shape-agnostic and both supporting the
config, filter returns `[A]`. -/
theorem filter_shapeAgnostic_last
    (implementations : List (ExecutorImplementation Attrs PostOps Desc Mem))
    (attrs : Attrs) (postOps : PostOps) (descs : MemoryDescArgs Desc) (priorityName : String) :
    (∀ before x after,
        filter implementations attrs postOps descs priorityName = before ++ x :: after →
        x.shapeAgnostic = true → after = [])
    ∧ ((filter implementations attrs postOps descs priorityName).filter
          (fun impl => impl.shapeAgnostic)).length ≤ 1
    ∧ (∀ A B : ExecutorImplementation Attrs PostOps Desc Mem,
        A.shapeAgnostic = true → A.supports ⟨descs, attrs, postOps⟩ = true →
        B.supports ⟨descs, attrs, postOps⟩ = true →
        filter [A, B] attrs postOps descs "" = [A]) := by
  have heq : filter implementations attrs postOps descs priorityName
      = filterSpec implementations ⟨descs, attrs, postOps⟩ priorityName := by
    simp [filter, filterLoop_eq]
  have hstop : ∀ before x after,
      filter implementations attrs postOps descs priorityName = before ++ x :: after →
      x.shapeAgnostic = true → after = [] := by
    intro before x after h hx
    rw [heq, filterSpec] at h
    exact cutAfterFirst_stops _ _ _ _ _ h hx
  refine ⟨hstop, ?_, ?_⟩
  · generalize filter implementations attrs postOps descs priorityName = res at hstop
    induction res with
    | nil => simp
    | cons y ys ih =>
      by_cases hy : y.shapeAgnostic = true
      · have := hstop [] y ys rfl hy
        simp [this, hy]
      · have hrec := ih (fun before x after h hx => hstop (y :: before) x after (by simp [h]) hx)
        simpa [List.filter_cons, hy] using hrec
  · intro A B hA hsA _
    have h1 : (!"".isEmpty && A.name != "") = false := by
      rw [← Bool.not_eq_true, nameSkipped_iff]
      simp
    simp [filter, filterLoop, hA, hsA, h1]

/-! ### `select` -/

theorem select_ok_iff (candidates : List (ExecutorImplementation Attrs PostOps Desc Mem))
    (memory : MemoryArgs Mem) (i : Nat) :
    select candidates memory = .ok i ↔
      i < candidates.length ∧
        candidates.findIdx (fun impl => impl.shapeAgnostic || impl.acceptsShapes memory) = i := by
  unfold select
  have hle : candidates.findIdx (fun impl => impl.shapeAgnostic || impl.acceptsShapes memory)
      ≤ candidates.length := List.findIdx_le_length _
  by_cases h : candidates.findIdx (fun impl => impl.shapeAgnostic || impl.acceptsShapes memory)
      = candidates.length
  · simp only [h, bne_self_eq_false, Bool.false_eq_true, ↓reduceIte, reduceCtorEq, false_iff,
      not_and]
    intro hi
    omega
  · simp only [bne_iff_ne, ne_eq, h, not_false_eq_true, ↓reduceIte, Except.ok.injEq]
    constructor
    · intro heq
      subst heq
      exact ⟨lt_of_le_of_ne hle h, rfl⟩
    · exact fun hh => hh.2

theorem select_error_iff (candidates : List (ExecutorImplementation Attrs PostOps Desc Mem))
    (memory : MemoryArgs Mem) (e : Err) :
    select candidates memory = .error e ↔
      e = .assertFailed "Failed to select an implemetation" ∧
        ∀ x ∈ candidates, (x.shapeAgnostic || x.acceptsShapes memory) = false := by
  unfold select
  by_cases h : candidates.findIdx (fun impl => impl.shapeAgnostic || impl.acceptsShapes memory)
      = candidates.length
  · have hall := List.findIdx_eq_length.1 h
    simp only [h, bne_self_eq_false, Bool.false_eq_true, ↓reduceIte, Except.error.injEq]
    constructor
    · intro he
      exact ⟨he.symm, hall⟩
    · exact fun hh => hh.1.symm
  · have hnall := fun hall => h (List.findIdx_eq_length.2 hall)
    simp only [bne_iff_ne, ne_eq, h, not_false_eq_true, ↓reduceIte, reduceCtorEq, false_iff,
      not_and]
    exact fun _ => hnall

/-- Claim C3. select returns index `i` exactly when candidate `i` is shape-agnostic or accepts
the shapes of the memory arguments and no candidate `j < i` does; select fails, with the
assertion error, exactly when no candidate is shape-agnostic or accepts the shapes, in
particular on an empty candidate list; a returned index is smaller than the number of
candidates. -/
theorem select_contract (candidates : List (ExecutorImplementation Attrs PostOps Desc Mem))
    (memory : MemoryArgs Mem) :
    (∀ i, select candidates memory = .ok i ↔
        ∃ h : i < candidates.length,
          (candidates[i].shapeAgnostic = true ∨ candidates[i].acceptsShapes memory = true) ∧
          ∀ j (hj : j < i), candidates[j].shapeAgnostic = false ∧
            candidates[j].acceptsShapes memory = false)
    ∧ (select candidates memory = .error (.assertFailed "Failed to select an implemetation") ↔
        ∀ x ∈ candidates, x.shapeAgnostic = false ∧ x.acceptsShapes memory = false)
    ∧ (∀ e, select candidates memory = .error e →
        e = .assertFailed "Failed to select an implemetation")
    ∧ select ([] : List (ExecutorImplementation Attrs PostOps Desc Mem)) memory
        = .error (.assertFailed "Failed to select an implemetation")
    ∧ (∀ i, select candidates memory = .ok i → i < candidates.length) := by
  refine ⟨?_, ?_, ?_, ?_, ?_⟩
  · intro i
    rw [select_ok_iff]
    constructor
    · rintro ⟨hi, hidx⟩
      refine ⟨hi, ?_⟩
      have := (List.findIdx_eq hi).1 hidx
      simpa using this
    · rintro ⟨hi, hacc, hbefore⟩
      refine ⟨hi, (List.findIdx_eq hi).2 ?_⟩
      simpa using ⟨hacc, hbefore⟩
  · rw [select_error_iff]
    simp
  · intro e he
    exact ((select_error_iff _ _ _).1 he).1
  · rfl
  · intro i hi
    exact ((select_ok_iff _ _ _).1 hi).1

/-- Claim C4. Shape-agnostic dominance: for a registry `[A, B]` with `A` shape-sensitive, `B`
shape-agnostic and both supporting the config, filter returns `[A, B]`; select on that list
returns `B` (index 1) for memory arguments whose shapes `A` does not accept and `A` (index 0)
for memory arguments `A` accepts. -/
theorem shapeAgnostic_dominance (A B : ExecutorImplementation Attrs PostOps Desc Mem)
    (attrs : Attrs) (postOps : PostOps) (descs : MemoryDescArgs Desc)
    (hA : A.shapeAgnostic = false) (hB : B.shapeAgnostic = true)
    (hsA : A.supports ⟨descs, attrs, postOps⟩ = true)
    (hsB : B.supports ⟨descs, attrs, postOps⟩ = true) :
    filter [A, B] attrs postOps descs "" = [A, B]
    ∧ (∀ memory : MemoryArgs Mem, A.acceptsShapes memory = false →
        select (filter [A, B] attrs postOps descs "") memory = .ok 1)
    ∧ (∀ memory : MemoryArgs Mem, A.acceptsShapes memory = true →
        select (filter [A, B] attrs postOps descs "") memory = .ok 0) := by
  have hskip : ∀ n : String, (!"".isEmpty && n != "") = false := by
    intro n
    rw [← Bool.not_eq_true, nameSkipped_iff]
    simp
  have hf : filter [A, B] attrs postOps descs "" = [A, B] := by
    simp [filter, filterLoop, hskip, hA, hB, hsA, hsB]
  refine ⟨hf, ?_, ?_⟩
  · intro memory hrej
    rw [hf]
    simp [select, List.findIdx_cons, hA, hB, hrej]
  · intro memory hacc
    rw [hf]
    simp [select, List.findIdx_cons, hA, hacc]

/-- Claim C4 at `implA`, `implB`: batch 4 is rejected by `implA`, batch 1 is accepted. -/
theorem shapeAgnostic_dominance_witness :
    filter [implA, implB] () () (exMemory 1) "" = [implA, implB]
    ∧ select (filter [implA, implB] () () (exMemory 1) "") (exMemory 4) = .ok 1
    ∧ select (filter [implA, implB] () () (exMemory 1) "") (exMemory 1) = .ok 0 :=
  have h := shapeAgnostic_dominance implA implB () () (exMemory 1) rfl rfl rfl rfl
  ⟨h.1, h.2.1 (exMemory 4) rfl, h.2.2 (exMemory 1) rfl⟩

end SelectionTheorems

section FactoryTheorems

variable {Attrs PostOps Desc Mem Ctx G : Type}

/-! ### `fallback` -/

theorem fallback_isError (emitter : GraphEmitter Attrs PostOps Desc Mem Ctx G)
    (config fallbackConfig : Config Attrs PostOps Desc) (memory : MemoryArgs Mem)
    (context : Ctx) (name : String) :
    ∃ e, fallback emitter config fallbackConfig memory context name = .error e := by
  unfold fallback
  split
  · exact ⟨_, rfl⟩
  · exact ⟨_, rfl⟩

/-! ### `create` -/

theorem create_hit (f : ExecutorFactory Attrs PostOps Desc Mem Ctx)
    (w : World Attrs PostOps Desc Mem Ctx) (impl : ExecutorImplementation Attrs PostOps Desc Mem)
    (memory : MemoryArgs Mem) (context : Ctx) (executor : ExecutorPtr)
    (h : f.m_executors.lookup (impl.type, impl.operationType) = some executor) :
    create f w impl memory context = (executor, f, w) := by
  simp [create, h]

theorem create_miss (f : ExecutorFactory Attrs PostOps Desc Mem Ctx)
    (w : World Attrs PostOps Desc Mem Ctx) (impl : ExecutorImplementation Attrs PostOps Desc Mem)
    (memory : MemoryArgs Mem) (context : Ctx)
    (h : f.m_executors.lookup (impl.type, impl.operationType) = none) :
    create f w impl memory context =
      (w.length,
        { f with m_executors := f.m_executors ++ [((impl.type, impl.operationType), w.length)] },
        w ++ [Event.create impl f.m_attrs f.m_postOps memory context w.length]) := by
  simp [create, h, implCreate]

/-! ### `make` -/

theorem make_direct (emitter : GraphEmitter Attrs PostOps Desc Mem Ctx G) (getDescPtr : Mem → Desc)
    (f : ExecutorFactory Attrs PostOps Desc Mem Ctx) (w : World Attrs PostOps Desc Mem Ctx)
    (memory : MemoryArgs Mem) (implId : Nat)
    (impl : ExecutorImplementation Attrs PostOps Desc Mem) (flag : Bool)
    (hs : select f.m_suitableImplementations memory = .ok implId)
    (hi : f.m_suitableImplementations[implId]? = some impl)
    (hf : f.m_implementationRequiresFallback[implId]? = some flag)
    (hno : (if flag then
        impl.requiresFallback ⟨memoryDescsFromMemory getDescPtr memory, f.m_attrs, f.m_postOps⟩
        else none) = none) :
    make emitter getDescPtr f w memory =
      ⟨.ok (create f w impl memory f.m_context).1, (create f w impl memory f.m_context).2.1,
        executorUpdate (create f w impl memory f.m_context).2.2
          (create f w impl memory f.m_context).1 memory⟩ := by
  unfold make
  simp only [hs, hi, hf]
  rw [hno]

theorem make_fallback (emitter : GraphEmitter Attrs PostOps Desc Mem Ctx G)
    (getDescPtr : Mem → Desc)
    (f : ExecutorFactory Attrs PostOps Desc Mem Ctx) (w : World Attrs PostOps Desc Mem Ctx)
    (memory : MemoryArgs Mem) (implId : Nat)
    (impl : ExecutorImplementation Attrs PostOps Desc Mem)
    (fallbackConfig : Config Attrs PostOps Desc)
    (hs : select f.m_suitableImplementations memory = .ok implId)
    (hi : f.m_suitableImplementations[implId]? = some impl)
    (hf : f.m_implementationRequiresFallback[implId]? = some true)
    (hreq : impl.requiresFallback ⟨memoryDescsFromMemory getDescPtr memory, f.m_attrs, f.m_postOps⟩
        = some fallbackConfig) :
    make emitter getDescPtr f w memory =
      ⟨fallback emitter ⟨memoryDescsFromMemory getDescPtr memory, f.m_attrs, f.m_postOps⟩
        fallbackConfig memory f.m_context impl.name, f, w⟩ := by
  unfold make
  simp only [hs, hi, hf, if_true, hreq]

theorem make_ok_inv (emitter : GraphEmitter Attrs PostOps Desc Mem Ctx G) (getDescPtr : Mem → Desc)
    (f : ExecutorFactory Attrs PostOps Desc Mem Ctx) (w : World Attrs PostOps Desc Mem Ctx)
    (memory : MemoryArgs Mem) (executor : ExecutorPtr)
    (h : (make emitter getDescPtr f w memory).result = .ok executor) :
    ∃ implId impl flag,
      select f.m_suitableImplementations memory = .ok implId ∧
      f.m_suitableImplementations[implId]? = some impl ∧
      f.m_implementationRequiresFallback[implId]? = some flag ∧
      (if flag then
        impl.requiresFallback ⟨memoryDescsFromMemory getDescPtr memory, f.m_attrs, f.m_postOps⟩
        else none) = none ∧
      executor = (create f w impl memory f.m_context).1 := by
  cases hs : select f.m_suitableImplementations memory with
  | error e => simp [make, hs] at h
  | ok implId =>
    cases hi : f.m_suitableImplementations[implId]? with
    | none => simp [make, hs, hi] at h
    | some impl =>
      cases hf : f.m_implementationRequiresFallback[implId]? with
      | none => simp [make, hs, hi, hf] at h
      | some flag =>
        cases hreq : (if flag then
            impl.requiresFallback ⟨memoryDescsFromMemory getDescPtr memory, f.m_attrs, f.m_postOps⟩
            else none) with
        | some fallbackConfig =>
          have hflag : flag = true := by
            cases flag
            · simp at hreq
            · rfl
          subst hflag
          simp only [if_true] at hreq
          rw [make_fallback emitter getDescPtr f w memory implId impl fallbackConfig hs hi hf hreq]
            at h
          obtain ⟨e, he⟩ := fallback_isError emitter
            ⟨memoryDescsFromMemory getDescPtr memory, f.m_attrs, f.m_postOps⟩ fallbackConfig
            memory f.m_context impl.name
          simp [he] at h
        | none =>
          rw [make_direct emitter getDescPtr f w memory implId impl flag hs hi hf hreq] at h
          simp only [Except.ok.injEq] at h
          exact ⟨implId, impl, flag, rfl, hi, hf, hreq, h.symm⟩

theorem make_cases (emitter : GraphEmitter Attrs PostOps Desc Mem Ctx G) (getDescPtr : Mem → Desc)
    (f : ExecutorFactory Attrs PostOps Desc Mem Ctx) (w : World Attrs PostOps Desc Mem Ctx)
    (memory : MemoryArgs Mem) :
    ((make emitter getDescPtr f w memory).factory = f ∧
      (make emitter getDescPtr f w memory).world = w ∧
      ∃ e, (make emitter getDescPtr f w memory).result = .error e)
    ∨ ∃ impl ∈ f.m_suitableImplementations,
      (make emitter getDescPtr f w memory).factory = (create f w impl memory f.m_context).2.1 ∧
      (make emitter getDescPtr f w memory).world =
        executorUpdate (create f w impl memory f.m_context).2.2
          (create f w impl memory f.m_context).1 memory ∧
      (make emitter getDescPtr f w memory).result = .ok (create f w impl memory f.m_context).1 := by
  cases hs : select f.m_suitableImplementations memory with
  | error e => left; simp [make, hs]
  | ok implId =>
    cases hi : f.m_suitableImplementations[implId]? with
    | none => left; simp [make, hs, hi]
    | some impl =>
      cases hf : f.m_implementationRequiresFallback[implId]? with
      | none => left; simp [make, hs, hi, hf]
      | some flag =>
        cases hreq : (if flag then
            impl.requiresFallback ⟨memoryDescsFromMemory getDescPtr memory, f.m_attrs, f.m_postOps⟩
            else none) with
        | some fallbackConfig =>
          have hflag : flag = true := by
            cases flag
            · simp at hreq
            · rfl
          subst hflag
          simp only [if_true] at hreq
          left
          rw [make_fallback emitter getDescPtr f w memory implId impl fallbackConfig hs hi hf hreq]
          exact ⟨rfl, rfl, fallback_isError _ _ _ _ _ _⟩
        | none =>
          right
          refine ⟨impl, List.getElem?_mem hi, ?_⟩
          rw [make_direct emitter getDescPtr f w memory implId impl flag hs hi hf hreq]
          exact ⟨rfl, rfl, rfl⟩

/-! ### Trace bookkeeping -/

theorem updatesOf_append (w₁ w₂ : World Attrs PostOps Desc Mem Ctx) :
    updatesOf (w₁ ++ w₂) = updatesOf w₁ ++ updatesOf w₂ := by
  simp [updatesOf]

theorem createKeys_append (w₁ w₂ : World Attrs PostOps Desc Mem Ctx) :
    createKeys (w₁ ++ w₂) = createKeys w₁ ++ createKeys w₂ := by
  simp [createKeys]

theorem createKeys_executorUpdate (w : World Attrs PostOps Desc Mem Ctx) (executor : ExecutorPtr)
    (memory : MemoryArgs Mem) : createKeys (executorUpdate w executor memory) = createKeys w := by
  simp [executorUpdate, createKeys]

/-! ### The cache -/

theorem create_fields (f : ExecutorFactory Attrs PostOps Desc Mem Ctx)
    (w : World Attrs PostOps Desc Mem Ctx) (impl : ExecutorImplementation Attrs PostOps Desc Mem)
    (memory : MemoryArgs Mem) (context : Ctx) :
    (create f w impl memory context).2.1.m_attrs = f.m_attrs ∧
    (create f w impl memory context).2.1.m_postOps = f.m_postOps ∧
    (create f w impl memory context).2.1.m_context = f.m_context ∧
    (create f w impl memory context).2.1.m_suitableImplementations
      = f.m_suitableImplementations ∧
    (create f w impl memory context).2.1.m_implementationRequiresFallback
      = f.m_implementationRequiresFallback := by
  cases h : f.m_executors.lookup (impl.type, impl.operationType) with
  | some executor => simp [create_hit f w impl memory context executor h]
  | none => simp [create_miss f w impl memory context h]

theorem create_lookup_mono (f : ExecutorFactory Attrs PostOps Desc Mem Ctx)
    (w : World Attrs PostOps Desc Mem Ctx) (impl : ExecutorImplementation Attrs PostOps Desc Mem)
    (memory : MemoryArgs Mem) (context : Ctx) (key : ExecutorType × OperationType)
    (executor : ExecutorPtr) (hk : f.m_executors.lookup key = some executor) :
    (create f w impl memory context).2.1.m_executors.lookup key = some executor := by
  cases h : f.m_executors.lookup (impl.type, impl.operationType) with
  | some found => simpa [create_hit f w impl memory context found h] using hk
  | none => simp [create_miss f w impl memory context h, List.lookup_append, hk]

theorem create_lookup_result (f : ExecutorFactory Attrs PostOps Desc Mem Ctx)
    (w : World Attrs PostOps Desc Mem Ctx) (impl : ExecutorImplementation Attrs PostOps Desc Mem)
    (memory : MemoryArgs Mem) (context : Ctx) :
    (create f w impl memory context).2.1.m_executors.lookup (impl.type, impl.operationType)
      = some (create f w impl memory context).1 := by
  cases h : f.m_executors.lookup (impl.type, impl.operationType) with
  | some found => simpa [create_hit f w impl memory context found h] using h
  | none => simp [create_miss f w impl memory context h, List.lookup_append, h]

theorem create_adds_no_update (f : ExecutorFactory Attrs PostOps Desc Mem Ctx)
    (w : World Attrs PostOps Desc Mem Ctx) (impl : ExecutorImplementation Attrs PostOps Desc Mem)
    (memory : MemoryArgs Mem) (context : Ctx) :
    ∃ added, (create f w impl memory context).2.2 = w ++ added ∧ updatesOf added = [] := by
  cases hl : f.m_executors.lookup (impl.type, impl.operationType) with
  | some found =>
    refine ⟨[], ?_, rfl⟩
    rw [create_hit f w impl memory context found hl]
    simp
  | none =>
    refine ⟨[Event.create impl f.m_attrs f.m_postOps memory context w.length], ?_, ?_⟩
    · rw [create_miss f w impl memory context hl]
    · simp [updatesOf]

theorem CreatesCached_create (f : ExecutorFactory Attrs PostOps Desc Mem Ctx)
    (w : World Attrs PostOps Desc Mem Ctx) (impl : ExecutorImplementation Attrs PostOps Desc Mem)
    (memory : MemoryArgs Mem) (context : Ctx) (hinv : CreatesCached f w) :
    CreatesCached (create f w impl memory context).2.1 (create f w impl memory context).2.2 := by
  cases h : f.m_executors.lookup (impl.type, impl.operationType) with
  | some found => simpa [create_hit f w impl memory context found h] using hinv
  | none =>
    have hnotin : (impl.type, impl.operationType) ∉ createKeys w := by
      intro hmem
      have := hinv.2 _ hmem
      simp [h] at this
    rw [create_miss f w impl memory context h]
    constructor
    · simp only [createKeys_append]
      have hone : createKeys [Event.create impl f.m_attrs f.m_postOps memory context w.length]
          = [(impl.type, impl.operationType)] := by simp [createKeys]
      rw [hone]
      exact List.nodup_append.2 ⟨hinv.1, List.nodup_singleton _, by simpa using hnotin⟩
    · intro key hkey
      simp only [createKeys_append, List.mem_append] at hkey
      rcases hkey with hold | hnew
      · have := hinv.2 key hold
        obtain ⟨v, hv⟩ := Option.isSome_iff_exists.1 this
        simp [List.lookup_append, hv]
      · have hk : key = (impl.type, impl.operationType) := by simpa [createKeys] using hnew
        subst hk
        simp [List.lookup_append, h]

/-! ### `preconfigure` -/

theorem preconfigure_of_transform (emitter : GraphEmitter Attrs PostOps Desc Mem Ctx G)
    (getDescPtr : Mem → Desc)
    (f : ExecutorFactory Attrs PostOps Desc Mem Ctx) (w : World Attrs PostOps Desc Mem Ctx)
    (memory : MemoryArgs Mem) (flags : List Bool)
    (ht : transform f.m_suitableImplementations f.m_implementationRequiresFallback
      (fun impl => (impl.requiresFallback
        ⟨memoryDescsFromMemory getDescPtr memory, f.m_attrs, f.m_postOps⟩).isSome)
      = some flags) :
    ((preconfigure emitter getDescPtr f w memory).factory
        = { f with m_implementationRequiresFallback := flags } ∧
      (preconfigure emitter getDescPtr f w memory).world = w ∧
      ∃ e, (preconfigure emitter getDescPtr f w memory).result = .error e)
    ∨ ∃ implId impl flag,
      select f.m_suitableImplementations memory = .ok implId ∧
      f.m_suitableImplementations[implId]? = some impl ∧
      flags[implId]? = some flag ∧
      (if flag then impl.requiresFallback
          ⟨memoryDescsFromMemory getDescPtr memory, f.m_attrs, f.m_postOps⟩ else none) = none ∧
      (preconfigure emitter getDescPtr f w memory).factory
        = (create { f with m_implementationRequiresFallback := flags } w impl memory
            f.m_context).2.1 ∧
      (preconfigure emitter getDescPtr f w memory).world
        = (create { f with m_implementationRequiresFallback := flags } w impl memory
            f.m_context).2.2 ∧
      (preconfigure emitter getDescPtr f w memory).result = .ok () := by
  cases hs : select f.m_suitableImplementations memory with
  | error e =>
    left
    simp [preconfigure, ht, hs]
  | ok implId =>
    cases hi : f.m_suitableImplementations[implId]? with
    | none =>
      left
      simp [preconfigure, ht, hs, hi]
    | some impl =>
      cases hf : flags[implId]? with
      | none =>
        left
        simp [preconfigure, ht, hs, hi, hf]
      | some flag =>
        cases hreq : (if flag then impl.requiresFallback
            ⟨memoryDescsFromMemory getDescPtr memory, f.m_attrs, f.m_postOps⟩ else none) with
        | none =>
          right
          refine ⟨implId, impl, flag, rfl, hi, hf, hreq, ?_⟩
          simp [preconfigure, ht, hs, hi, hf, hreq]
        | some fallbackConfig =>
          obtain ⟨e, he⟩ := fallback_isError emitter
            ⟨memoryDescsFromMemory getDescPtr memory, f.m_attrs, f.m_postOps⟩ fallbackConfig
            memory f.m_context impl.name
          left
          simp [preconfigure, ht, hs, hi, hf, hreq, he]

theorem preconfigure_cases (emitter : GraphEmitter Attrs PostOps Desc Mem Ctx G)
    (getDescPtr : Mem → Desc)
    (f : ExecutorFactory Attrs PostOps Desc Mem Ctx) (w : World Attrs PostOps Desc Mem Ctx)
    (memory : MemoryArgs Mem) :
    ∃ flags : List Bool,
      ((preconfigure emitter getDescPtr f w memory).factory
          = { f with m_implementationRequiresFallback := flags } ∧
        (preconfigure emitter getDescPtr f w memory).world = w ∧
        ∃ e, (preconfigure emitter getDescPtr f w memory).result = .error e)
      ∨ ∃ impl ∈ f.m_suitableImplementations,
        (preconfigure emitter getDescPtr f w memory).factory
          = (create { f with m_implementationRequiresFallback := flags } w impl memory
              f.m_context).2.1 ∧
        (preconfigure emitter getDescPtr f w memory).world
          = (create { f with m_implementationRequiresFallback := flags } w impl memory
              f.m_context).2.2 ∧
        (preconfigure emitter getDescPtr f w memory).result = .ok () := by
  cases ht : transform f.m_suitableImplementations f.m_implementationRequiresFallback
      (fun impl => (impl.requiresFallback
        ⟨memoryDescsFromMemory getDescPtr memory, f.m_attrs, f.m_postOps⟩).isSome) with
  | none =>
    refine ⟨f.m_implementationRequiresFallback, Or.inl ?_⟩
    simp [preconfigure, ht]
  | some flags =>
    refine ⟨flags, ?_⟩
    rcases preconfigure_of_transform emitter getDescPtr f w memory flags ht with
      hleft | ⟨implId, impl, flag, _, hi, _, _, hfac, hw, hres⟩
    · exact Or.inl hleft
    · exact Or.inr ⟨impl, List.getElem?_mem hi, hfac, hw, hres⟩

/-! ### Invariants along calls -/

theorem step_lookup_mono (emitter : GraphEmitter Attrs PostOps Desc Mem Ctx G)
    (getDescPtr : Mem → Desc)
    (s : ExecutorFactory Attrs PostOps Desc Mem Ctx × World Attrs PostOps Desc Mem Ctx)
    (call : Call Mem) (key : ExecutorType × OperationType) (executor : ExecutorPtr)
    (hk : s.1.m_executors.lookup key = some executor) :
    (step emitter getDescPtr s call).1.m_executors.lookup key = some executor := by
  cases call with
  | preconfigure memory =>
    obtain ⟨flags, hcase⟩ := preconfigure_cases emitter getDescPtr s.1 s.2 memory
    rcases hcase with ⟨hf, _, _⟩ | ⟨impl, _, hf, _, _⟩
    · simp only [step, hf]
      exact hk
    · simp only [step, hf]
      exact create_lookup_mono _ _ _ _ _ _ _ hk
  | make memory =>
    rcases make_cases emitter getDescPtr s.1 s.2 memory with ⟨hf, _, _⟩ | ⟨impl, _, hf, _, _⟩
    · simp only [step, hf]
      exact hk
    · simp only [step, hf]
      exact create_lookup_mono _ _ _ _ _ _ _ hk

theorem run_lookup_mono (emitter : GraphEmitter Attrs PostOps Desc Mem Ctx G)
    (getDescPtr : Mem → Desc) (calls : List (Call Mem))
    (s : ExecutorFactory Attrs PostOps Desc Mem Ctx × World Attrs PostOps Desc Mem Ctx)
    (key : ExecutorType × OperationType) (executor : ExecutorPtr)
    (hk : s.1.m_executors.lookup key = some executor) :
    (run emitter getDescPtr s calls).1.m_executors.lookup key = some executor := by
  induction calls generalizing s with
  | nil => exact hk
  | cons call rest ih =>
    simp only [run, List.foldl_cons]
    exact ih _ (step_lookup_mono emitter getDescPtr s call key executor hk)

theorem CreatesCached_step (emitter : GraphEmitter Attrs PostOps Desc Mem Ctx G)
    (getDescPtr : Mem → Desc)
    (s : ExecutorFactory Attrs PostOps Desc Mem Ctx × World Attrs PostOps Desc Mem Ctx)
    (call : Call Mem) (hinv : CreatesCached s.1 s.2) :
    CreatesCached (step emitter getDescPtr s call).1 (step emitter getDescPtr s call).2 := by
  cases call with
  | preconfigure memory =>
    obtain ⟨flags, hcase⟩ := preconfigure_cases emitter getDescPtr s.1 s.2 memory
    rcases hcase with ⟨hf, hw, _⟩ | ⟨impl, _, hf, hw, _⟩
    · simp only [step, hf, hw]
      exact hinv
    · simp only [step, hf, hw]
      exact CreatesCached_create _ _ _ _ _ hinv
  | make memory =>
    rcases make_cases emitter getDescPtr s.1 s.2 memory with ⟨hf, hw, _⟩ | ⟨impl, _, hf, hw, _⟩
    · simp only [step, hf, hw]
      exact hinv
    · simp only [step, hf, hw]
      have hc := CreatesCached_create s.1 s.2 impl memory s.1.m_context hinv
      exact ⟨by rw [createKeys_executorUpdate]; exact hc.1,
        by rw [createKeys_executorUpdate]; exact hc.2⟩

theorem CreatesCached_run (emitter : GraphEmitter Attrs PostOps Desc Mem Ctx G)
    (getDescPtr : Mem → Desc) (calls : List (Call Mem))
    (s : ExecutorFactory Attrs PostOps Desc Mem Ctx × World Attrs PostOps Desc Mem Ctx)
    (hinv : CreatesCached s.1 s.2) :
    CreatesCached (run emitter getDescPtr s calls).1 (run emitter getDescPtr s calls).2 := by
  induction calls generalizing s with
  | nil => exact hinv
  | cons call rest ih =>
    simp only [run, List.foldl_cons]
    exact ih _ (CreatesCached_step emitter getDescPtr s call hinv)

/-! ### Claims about `make` and the executor cache -/

/-- Claim C5. A make call that returns an executor has invoked update on that executor
exactly once, with the memory arguments passed to make: the calls it adds to the trace are
that single update alone when the executor came from the cache, and one create followed by
that single update when the executor was newly created. -/
theorem make_updates_returned_executor_once
    (emitter : GraphEmitter Attrs PostOps Desc Mem Ctx G) (getDescPtr : Mem → Desc)
    (f : ExecutorFactory Attrs PostOps Desc Mem Ctx) (w : World Attrs PostOps Desc Mem Ctx)
    (memory : MemoryArgs Mem) (executor : ExecutorPtr)
    (h : (make emitter getDescPtr f w memory).result = .ok executor) :
    updatesOf ((make emitter getDescPtr f w memory).world.drop w.length) = [(executor, memory)]
    ∧ ((∃ key, f.m_executors.lookup key = some executor ∧
          (make emitter getDescPtr f w memory).world = w ++ [Event.update executor memory])
      ∨ (∃ impl, f.m_executors.lookup (impl.type, impl.operationType) = none ∧
          (make emitter getDescPtr f w memory).world =
            w ++ [Event.create impl f.m_attrs f.m_postOps memory f.m_context executor,
              Event.update executor memory])) := by
  obtain ⟨implId, impl, flag, hs, hi, hf, hno, hex⟩ :=
    make_ok_inv emitter getDescPtr f w memory executor h
  rw [make_direct emitter getDescPtr f w memory implId impl flag hs hi hf hno]
  cases hl : f.m_executors.lookup (impl.type, impl.operationType) with
  | some found =>
    rw [create_hit f w impl memory f.m_context found hl] at hex ⊢
    subst hex
    refine ⟨by simp [executorUpdate, updatesOf], Or.inl ⟨_, hl, rfl⟩⟩
  | none =>
    rw [create_miss f w impl memory f.m_context hl] at hex ⊢
    simp only at hex
    subst hex
    refine ⟨by simp [executorUpdate, updatesOf], Or.inr ⟨impl, hl, by simp [executorUpdate]⟩⟩

/-- Claim C5 at the factory over `[implB]`: the first make creates executor 0 and updates it
once. -/
theorem make_updates_returned_executor_once_witness :
    (make exEmitter id (exFactory [implB]) [] (exMemory 1)).result = .ok 0
    ∧ updatesOf ((make exEmitter id (exFactory [implB]) [] (exMemory 1)).world.drop 0)
        = [(0, exMemory 1)] :=
  ⟨rfl, (make_updates_returned_executor_once exEmitter id (exFactory [implB]) [] (exMemory 1) 0
    rfl).1⟩

/-- Claim C6. Over any sequence of preconfigure and make calls on a constructed factory, no
`(type, operationType)` pair has its implementation's create invoked twice; every call keeps
the entries of the executor cache; and two successful make calls whose selected
implementations have the same pair return the same executor, the later one without a create
call (it adds the update alone to the trace). -/
theorem executor_cache_contract (emitter : GraphEmitter Attrs PostOps Desc Mem Ctx G)
    (getDescPtr : Mem → Desc) :
    (∀ (implementations : List (ExecutorImplementation Attrs PostOps Desc Mem)) (attrs : Attrs)
        (postOps : PostOps) (context : Ctx) (descriptors : MemoryDescArgs Desc)
        (priorityName : String) (calls : List (Call Mem)),
        (createKeys (run emitter getDescPtr
          (ExecutorFactory.ctor implementations attrs postOps context descriptors priorityName,
            []) calls).2).Nodup)
    ∧ (∀ (s : ExecutorFactory Attrs PostOps Desc Mem Ctx × World Attrs PostOps Desc Mem Ctx)
        (call : Call Mem) (key : ExecutorType × OperationType) (executor : ExecutorPtr),
        s.1.m_executors.lookup key = some executor →
        (step emitter getDescPtr s call).1.m_executors.lookup key = some executor)
    ∧ (∀ (s later : ExecutorFactory Attrs PostOps Desc Mem Ctx × World Attrs PostOps Desc Mem Ctx)
        (calls : List (Call Mem)) (memory₁ memory₂ : MemoryArgs Mem)
        (executor₁ executor₂ : ExecutorPtr) (i₁ i₂ : Nat)
        (impl₁ impl₂ : ExecutorImplementation Attrs PostOps Desc Mem),
        (make emitter getDescPtr s.1 s.2 memory₁).result = .ok executor₁ →
        select s.1.m_suitableImplementations memory₁ = .ok i₁ →
        s.1.m_suitableImplementations[i₁]? = some impl₁ →
        later = run emitter getDescPtr (step emitter getDescPtr s (.make memory₁)) calls →
        (make emitter getDescPtr later.1 later.2 memory₂).result = .ok executor₂ →
        select later.1.m_suitableImplementations memory₂ = .ok i₂ →
        later.1.m_suitableImplementations[i₂]? = some impl₂ →
        (impl₂.type, impl₂.operationType) = (impl₁.type, impl₁.operationType) →
        executor₂ = executor₁ ∧
          (make emitter getDescPtr later.1 later.2 memory₂).world
            = later.2 ++ [Event.update executor₁ memory₂]) := by
  refine ⟨?_, ?_, ?_⟩
  · intro implementations attrs postOps context descriptors priorityName calls
    have hinit : CreatesCached
        (ExecutorFactory.ctor implementations attrs postOps context descriptors priorityName,
          ([] : World Attrs PostOps Desc Mem Ctx)).1
        (ExecutorFactory.ctor implementations attrs postOps context descriptors priorityName,
          ([] : World Attrs PostOps Desc Mem Ctx)).2 := by
      simp [CreatesCached, createKeys]
    exact (CreatesCached_run emitter getDescPtr calls _ hinit).1
  · intro s call key executor hk
    exact step_lookup_mono emitter getDescPtr s call key executor hk
  · intro s later calls memory₁ memory₂ executor₁ executor₂ i₁ i₂ impl₁ impl₂
      h₁ hs₁ hi₁ hlater h₂ hs₂ hi₂ hpair
    -- the first call leaves the executor in the cache under the pair
    obtain ⟨j₁, x₁, flag₁, hsj, hxj, hfj, hno₁, hex₁⟩ :=
      make_ok_inv emitter getDescPtr s.1 s.2 memory₁ executor₁ h₁
    have hj : j₁ = i₁ := by
      rw [hs₁] at hsj
      exact (Except.ok.inj hsj).symm
    subst hj
    have hx : x₁ = impl₁ := by
      rw [hi₁] at hxj
      exact (Option.some.inj hxj).symm
    subst hx
    have hcache₁ : (step emitter getDescPtr s (.make memory₁)).1.m_executors.lookup
        (x₁.type, x₁.operationType) = some executor₁ := by
      simp only [step]
      rw [make_direct emitter getDescPtr s.1 s.2 memory₁ j₁ x₁ flag₁ hs₁ hi₁ hfj hno₁, hex₁]
      exact create_lookup_result _ _ _ _ _
    have hcache : later.1.m_executors.lookup (impl₂.type, impl₂.operationType)
        = some executor₁ := by
      rw [hpair, hlater]
      exact run_lookup_mono emitter getDescPtr calls _ _ _ hcache₁
    -- the second call finds it there
    obtain ⟨j₂, x₂, flag₂, hsj₂, hxj₂, hfj₂, hno₂, hex₂⟩ :=
      make_ok_inv emitter getDescPtr later.1 later.2 memory₂ executor₂ h₂
    have hj₂ : j₂ = i₂ := by
      rw [hs₂] at hsj₂
      exact (Except.ok.inj hsj₂).symm
    subst hj₂
    have hx₂ : x₂ = impl₂ := by
      rw [hi₂] at hxj₂
      exact (Option.some.inj hxj₂).symm
    subst hx₂
    rw [create_hit later.1 later.2 x₂ memory₂ later.1.m_context executor₁ hcache] at hex₂
    refine ⟨hex₂, ?_⟩
    rw [make_direct emitter getDescPtr later.1 later.2 memory₂ j₂ x₂ flag₂ hs₂ hi₂ hfj₂ hno₂,
      create_hit later.1 later.2 x₂ memory₂ later.1.m_context executor₁ hcache]
    rfl

/-- Claim C6 at the factory over `[implB]`: make for batch 1 and then for batch 4 select
`implB` both times, return executor 0 both times, and the second adds no create call. -/
theorem executor_cache_contract_witness :
    (make exEmitter id (exFactory [implB]) [] (exMemory 1)).result = .ok 0
    ∧ (make exEmitter id
        (step exEmitter id (exFactory [implB], []) (.make (exMemory 1))).1
        (step exEmitter id (exFactory [implB], []) (.make (exMemory 1))).2
        (exMemory 4)).result = .ok 0
    ∧ (0 = 0 ∧ (make exEmitter id
        (step exEmitter id (exFactory [implB], []) (.make (exMemory 1))).1
        (step exEmitter id (exFactory [implB], []) (.make (exMemory 1))).2
        (exMemory 4)).world
          = (step exEmitter id (exFactory [implB], []) (.make (exMemory 1))).2
            ++ [Event.update 0 (exMemory 4)]) :=
  ⟨rfl, rfl,
    (executor_cache_contract exEmitter id).2.2 (exFactory [implB], [])
      (step exEmitter id (exFactory [implB], []) (.make (exMemory 1))) []
      (exMemory 1) (exMemory 4) 0 0 0 0 implB implB rfl rfl rfl rfl rfl rfl rfl rfl⟩

/-! ### Provenance of cached executors -/

theorem CacheProvenance_create (f : ExecutorFactory Attrs PostOps Desc Mem Ctx)
    (w : World Attrs PostOps Desc Mem Ctx) (impl : ExecutorImplementation Attrs PostOps Desc Mem)
    (memory : MemoryArgs Mem) (himpl : impl ∈ f.m_suitableImplementations)
    (hinv : CacheProvenance f w) :
    CacheProvenance (create f w impl memory f.m_context).2.1
      (create f w impl memory f.m_context).2.2 := by
  cases h : f.m_executors.lookup (impl.type, impl.operationType) with
  | some found => simpa [create_hit f w impl memory f.m_context found h] using hinv
  | none =>
    rw [create_miss f w impl memory f.m_context h]
    intro key executor hk
    simp only [List.lookup_append] at hk
    cases hold : f.m_executors.lookup key with
    | some v =>
      simp only [hold, Option.or_some, Option.some.injEq] at hk
      subst hk
      obtain ⟨x, hx, m, hmem, hpair⟩ := hinv key v hold
      exact ⟨x, hx, m, List.mem_append_left _ hmem, hpair⟩
    | none =>
      simp only [hold, Option.none_or] at hk
      have hkey : key = (impl.type, impl.operationType) := by
        by_contra hne
        have hbeq : (key == (impl.type, impl.operationType)) = false := by
          simpa using hne
        simp [List.lookup_cons, hbeq] at hk
      subst hkey
      simp only [List.lookup_cons_self, Option.some.injEq] at hk
      subst hk
      exact ⟨impl, himpl, memory, by simp, rfl⟩

theorem CacheProvenance_step (emitter : GraphEmitter Attrs PostOps Desc Mem Ctx G)
    (getDescPtr : Mem → Desc)
    (s : ExecutorFactory Attrs PostOps Desc Mem Ctx × World Attrs PostOps Desc Mem Ctx)
    (call : Call Mem) (hinv : CacheProvenance s.1 s.2) :
    CacheProvenance (step emitter getDescPtr s call).1 (step emitter getDescPtr s call).2 := by
  cases call with
  | preconfigure memory =>
    obtain ⟨flags, hcase⟩ := preconfigure_cases emitter getDescPtr s.1 s.2 memory
    rcases hcase with ⟨hf, hw, _⟩ | ⟨impl, himpl, hf, hw, _⟩
    · simp only [step, hf, hw]
      exact hinv
    · simp only [step, hf, hw]
      exact CacheProvenance_create { s.1 with m_implementationRequiresFallback := flags } s.2
        impl memory himpl hinv
  | make memory =>
    rcases make_cases emitter getDescPtr s.1 s.2 memory with ⟨hf, hw, _⟩ | ⟨impl, himpl, hf, hw, _⟩
    · simp only [step, hf, hw]
      exact hinv
    · simp only [step, hf, hw]
      have hc := CacheProvenance_create s.1 s.2 impl memory himpl hinv
      intro key executor hk
      obtain ⟨x, hx, m, hmem, hpair⟩ := hc key executor hk
      exact ⟨x, hx, m, List.mem_append_left _ hmem, hpair⟩

theorem CacheProvenance_run (emitter : GraphEmitter Attrs PostOps Desc Mem Ctx G)
    (getDescPtr : Mem → Desc) (calls : List (Call Mem))
    (s : ExecutorFactory Attrs PostOps Desc Mem Ctx × World Attrs PostOps Desc Mem Ctx)
    (hinv : CacheProvenance s.1 s.2) :
    CacheProvenance (run emitter getDescPtr s calls).1 (run emitter getDescPtr s calls).2 := by
  induction calls generalizing s with
  | nil => exact hinv
  | cons call rest ih =>
    simp only [run, List.foldl_cons]
    exact ih _ (CacheProvenance_step emitter getDescPtr s call hinv)

/-- Claim C7, as stated, fails: over the registry `[implA, implA2]`, whose two implementations
share one `(type, operationType)` pair, make for batch 1 creates executor 0 through `implA`;
the following make for batch 4 selects `implA2` (index 1) and returns executor 0, and the
trace holds no create call of `implA2` at all. -/
theorem make_returns_executor_of_other_implementation :
    select exAfterBatchOne.1.m_suitableImplementations (exMemory 4) = .ok 1
    ∧ exAfterBatchOne.1.m_suitableImplementations[1]? = some implA2
    ∧ (make exEmitter id exAfterBatchOne.1 exAfterBatchOne.2 (exMemory 4)).result = .ok 0
    ∧ (make exEmitter id exAfterBatchOne.1 exAfterBatchOne.2 (exMemory 4)).world
        = [Event.create implA () () (exMemory 1) () 0, Event.update 0 (exMemory 1),
            Event.update 0 (exMemory 4)]
    ∧ ¬ ∃ memory executor, Event.create implA2 () () memory () executor
        ∈ (make exEmitter id exAfterBatchOne.1 exAfterBatchOne.2 (exMemory 4)).world := by
  have hw : (make exEmitter id exAfterBatchOne.1 exAfterBatchOne.2 (exMemory 4)).world
      = [Event.create implA () () (exMemory 1) () 0, Event.update 0 (exMemory 1),
          Event.update 0 (exMemory 4)] := rfl
  refine ⟨rfl, rfl, rfl, hw, ?_⟩
  rw [hw]
  rintro ⟨memory, executor, hmem⟩
  simp only [List.mem_cons, Event.create.injEq, reduceCtorEq, List.mem_singleton, or_false,
    List.not_mem_nil] at hmem
  have hname := congrArg ExecutorImplementation.name hmem.1
  simp [implA, implA2] at hname

/-- Claim C7, amended. In every state reached from a constructed factory by preconfigure and
make calls, when make returns an executor, that executor was created by a candidate
implementation whose `(type, operationType)` pair is that of the implementation select chose
for the memory arguments, by its create with the attributes, post-ops and context of the
factory; when the cache held no entry for that pair before the call, it was created in this
call by the selected implementation itself, with these memory arguments. -/
theorem make_returns_executor_created_for_pair
    (emitter : GraphEmitter Attrs PostOps Desc Mem Ctx G) (getDescPtr : Mem → Desc)
    (implementations : List (ExecutorImplementation Attrs PostOps Desc Mem)) (attrs : Attrs)
    (postOps : PostOps) (context : Ctx) (descriptors : MemoryDescArgs Desc)
    (priorityName : String) (calls : List (Call Mem))
    (s : ExecutorFactory Attrs PostOps Desc Mem Ctx × World Attrs PostOps Desc Mem Ctx)
    (memory : MemoryArgs Mem) (executor : ExecutorPtr) (implId : Nat)
    (selected : ExecutorImplementation Attrs PostOps Desc Mem)
    (hreach : s = run emitter getDescPtr
      (ExecutorFactory.ctor implementations attrs postOps context descriptors priorityName, [])
      calls)
    (hmake : (make emitter getDescPtr s.1 s.2 memory).result = .ok executor)
    (hsel : select s.1.m_suitableImplementations memory = .ok implId)
    (hidx : s.1.m_suitableImplementations[implId]? = some selected) :
    (∃ impl ∈ s.1.m_suitableImplementations, ∃ createdWith,
        Event.create impl s.1.m_attrs s.1.m_postOps createdWith s.1.m_context executor
          ∈ (make emitter getDescPtr s.1 s.2 memory).world ∧
        (impl.type, impl.operationType) = (selected.type, selected.operationType))
    ∧ (s.1.m_executors.lookup (selected.type, selected.operationType) = none →
        Event.create selected s.1.m_attrs s.1.m_postOps memory s.1.m_context executor
          ∈ (make emitter getDescPtr s.1 s.2 memory).world) := by
  have hinv : CacheProvenance s.1 s.2 := by
    rw [hreach]
    apply CacheProvenance_run
    intro key executor hk
    simp [ExecutorFactory.ctor] at hk
  obtain ⟨j, x, flag, hsj, hxj, hfj, hno, hex⟩ :=
    make_ok_inv emitter getDescPtr s.1 s.2 memory executor hmake
  have hj : j = implId := by
    rw [hsel] at hsj
    exact (Except.ok.inj hsj).symm
  subst hj
  have hx : x = selected := by
    rw [hidx] at hxj
    exact (Option.some.inj hxj).symm
  subst hx
  have hmem : x ∈ s.1.m_suitableImplementations := List.getElem?_mem hidx
  rw [make_direct emitter getDescPtr s.1 s.2 memory j x flag hsel hidx hfj hno]
  have hafter := CacheProvenance_create s.1 s.2 x memory hmem hinv
  have hres := create_lookup_result s.1 s.2 x memory s.1.m_context
  rw [← hex] at hres
  obtain ⟨y, hy, m, hevent, hpair⟩ := hafter _ _ hres
  have hfields := create_fields s.1 s.2 x memory s.1.m_context
  rw [hfields.1, hfields.2.1, hfields.2.2.1] at hevent
  rw [hfields.2.2.2.1] at hy
  refine ⟨⟨y, hy, m, ?_, hpair⟩, ?_⟩
  · simp only [executorUpdate]
    rw [← hex]
    exact List.mem_append_left _ hevent
  · intro hnone
    simp only [executorUpdate]
    rw [create_miss s.1 s.2 x memory s.1.m_context hnone] at hex ⊢
    simp only at hex
    subst hex
    simp

/-- Claim C7, amended, at the second make over `[implA, implA2]`: the returned executor 0 was
created by `implA`, which has the pair of the selected `implA2`. -/
theorem make_returns_executor_created_for_pair_witness :
    (make exEmitter id exAfterBatchOne.1 exAfterBatchOne.2 (exMemory 4)).result = .ok 0
    ∧ ∃ impl ∈ exAfterBatchOne.1.m_suitableImplementations, ∃ createdWith,
        Event.create impl exAfterBatchOne.1.m_attrs exAfterBatchOne.1.m_postOps createdWith
            exAfterBatchOne.1.m_context 0
          ∈ (make exEmitter id exAfterBatchOne.1 exAfterBatchOne.2 (exMemory 4)).world ∧
        (impl.type, impl.operationType) = (implA2.type, implA2.operationType) :=
  ⟨rfl, (make_returns_executor_created_for_pair exEmitter id [implA, implA2] () () ()
    (exMemory 1) "" [.make (exMemory 1)] exAfterBatchOne (exMemory 4) 0 1 implA2
    rfl rfl rfl rfl).1⟩

/-! ### The fallback flags -/

theorem transform_getElem? {α β : Type} (src : List α) (dst flags : List β) (op : α → β)
    (ht : transform src dst op = some flags) (i : Nat) (x : α) (hx : src[i]? = some x) :
    flags[i]? = some (op x) := by
  unfold transform at ht
  split at ht
  · simp only [Option.some.injEq] at ht
    subst ht
    have hi : i < src.length := (List.getElem?_eq_some.1 hx).1
    rw [List.getElem?_append_left (by simpa using hi)]
    simp [hx]
  · simp at ht

theorem preconfigure_fallback (emitter : GraphEmitter Attrs PostOps Desc Mem Ctx G)
    (getDescPtr : Mem → Desc)
    (f : ExecutorFactory Attrs PostOps Desc Mem Ctx) (w : World Attrs PostOps Desc Mem Ctx)
    (memory : MemoryArgs Mem) (implId : Nat)
    (impl : ExecutorImplementation Attrs PostOps Desc Mem)
    (fallbackConfig : Config Attrs PostOps Desc)
    (hlen : f.m_suitableImplementations.length ≤ f.m_implementationRequiresFallback.length)
    (hs : select f.m_suitableImplementations memory = .ok implId)
    (hi : f.m_suitableImplementations[implId]? = some impl)
    (hreq : impl.requiresFallback ⟨memoryDescsFromMemory getDescPtr memory, f.m_attrs, f.m_postOps⟩
        = some fallbackConfig) :
    (preconfigure emitter getDescPtr f w memory).world = w ∧
    (preconfigure emitter getDescPtr f w memory).factory.m_executors = f.m_executors ∧
    ∃ e, fallback emitter ⟨memoryDescsFromMemory getDescPtr memory, f.m_attrs, f.m_postOps⟩
        fallbackConfig memory f.m_context impl.name = .error e ∧
      (preconfigure emitter getDescPtr f w memory).result = .error e := by
  cases ht : transform f.m_suitableImplementations f.m_implementationRequiresFallback
      (fun impl => (impl.requiresFallback
        ⟨memoryDescsFromMemory getDescPtr memory, f.m_attrs, f.m_postOps⟩).isSome) with
  | none => simp [transform, hlen] at ht
  | some flags =>
    have hf := transform_getElem? _ _ _ _ ht implId impl hi
    simp only [hreq, Option.isSome_some] at hf
    obtain ⟨e, he⟩ := fallback_isError emitter
      ⟨memoryDescsFromMemory getDescPtr memory, f.m_attrs, f.m_postOps⟩ fallbackConfig
      memory f.m_context impl.name
    refine ⟨?_, ?_, e, he, ?_⟩ <;> simp [preconfigure, ht, hs, hi, hf, hreq, he]

/-- Claim C8. The fallback protocol never returns an executor: fallback ends in the error of
a failed emitter step or check, or else in the unconditional "Fallback logic is not
implemented yet" error. Hence make fails whenever it enters the fallback path, and so does
preconfigure (on a factory whose flag vector covers its candidates, as in every state reached
from the constructor), both leaving cache and trace as they were; and a fallback
configuration whose destination descriptors differ from the original ones fails as well. -/
theorem fallback_never_returns (emitter : GraphEmitter Attrs PostOps Desc Mem Ctx G)
    (getDescPtr : Mem → Desc) :
    (∀ (config fallbackConfig : Config Attrs PostOps Desc) (memory : MemoryArgs Mem)
        (context : Ctx) (name : String),
        (∀ executor, fallback emitter config fallbackConfig memory context name ≠ .ok executor)
        ∧ ((∃ e, graphExecutor emitter config fallbackConfig memory context name = .error e ∧
              fallback emitter config fallbackConfig memory context name = .error e)
          ∨ ((∃ discarded,
                graphExecutor emitter config fallbackConfig memory context name = .ok discarded) ∧
              fallback emitter config fallbackConfig memory context name
                = .error (.thrown "Fallback logic is not implemented yet"))))
    ∧ (∀ (f : ExecutorFactory Attrs PostOps Desc Mem Ctx) (w : World Attrs PostOps Desc Mem Ctx)
        (memory : MemoryArgs Mem) (implId : Nat)
        (impl : ExecutorImplementation Attrs PostOps Desc Mem)
        (fallbackConfig : Config Attrs PostOps Desc),
        select f.m_suitableImplementations memory = .ok implId →
        f.m_suitableImplementations[implId]? = some impl →
        f.m_implementationRequiresFallback[implId]? = some true →
        impl.requiresFallback ⟨memoryDescsFromMemory getDescPtr memory, f.m_attrs, f.m_postOps⟩
          = some fallbackConfig →
        (∃ e, (make emitter getDescPtr f w memory).result = .error e) ∧
          (make emitter getDescPtr f w memory).factory = f ∧
          (make emitter getDescPtr f w memory).world = w)
    ∧ (∀ (f : ExecutorFactory Attrs PostOps Desc Mem Ctx) (w : World Attrs PostOps Desc Mem Ctx)
        (memory : MemoryArgs Mem) (implId : Nat)
        (impl : ExecutorImplementation Attrs PostOps Desc Mem)
        (fallbackConfig : Config Attrs PostOps Desc),
        f.m_suitableImplementations.length ≤ f.m_implementationRequiresFallback.length →
        select f.m_suitableImplementations memory = .ok implId →
        f.m_suitableImplementations[implId]? = some impl →
        impl.requiresFallback ⟨memoryDescsFromMemory getDescPtr memory, f.m_attrs, f.m_postOps⟩
          = some fallbackConfig →
        (∃ e, (preconfigure emitter getDescPtr f w memory).result = .error e) ∧
          (preconfigure emitter getDescPtr f w memory).factory.m_executors = f.m_executors ∧
          (preconfigure emitter getDescPtr f w memory).world = w)
    ∧ (∀ (config fallbackConfig : Config Attrs PostOps Desc) (memory : MemoryArgs Mem)
        (context : Ctx) (name : String) (argDst : Int),
        fallbackConfig.descs.lookup argDst ≠ config.descs.lookup argDst →
        ∃ e, fallback emitter config fallbackConfig memory context name = .error e) := by
  refine ⟨?_, ?_, ?_, ?_⟩
  · intro config fallbackConfig memory context name
    constructor
    · intro executor hok
      obtain ⟨e, he⟩ := fallback_isError emitter config fallbackConfig memory context name
      rw [he] at hok
      cases hok
    · unfold fallback
      cases hg : graphExecutor emitter config fallbackConfig memory context name with
      | error e => exact Or.inl ⟨e, rfl, rfl⟩
      | ok discarded => exact Or.inr ⟨⟨discarded, rfl⟩, rfl⟩
  · intro f w memory implId impl fallbackConfig hs hi hf hreq
    rw [make_fallback emitter getDescPtr f w memory implId impl fallbackConfig hs hi hf hreq]
    exact ⟨fallback_isError _ _ _ _ _ _, rfl, rfl⟩
  · intro f w memory implId impl fallbackConfig hlen hs hi hreq
    obtain ⟨hw, hc, e, _, he⟩ :=
      preconfigure_fallback emitter getDescPtr f w memory implId impl fallbackConfig
        hlen hs hi hreq
    exact ⟨⟨e, he⟩, hc, hw⟩
  · intro config fallbackConfig memory context name argDst _
    exact fallback_isError _ _ _ _ _ _

/-- Claim C8 at the factory over `[implF]`: make for batch 4 enters the fallback path, every
emitter step succeeds, and the call ends in the "not implemented" error. -/
theorem fallback_never_returns_witness :
    (make exEmitter id (exFactory [implF]) [] (exMemory 4)).result
      = .error (.thrown "Fallback logic is not implemented yet")
    ∧ ((∃ e, (make exEmitter id (exFactory [implF]) [] (exMemory 4)).result = .error e) ∧
        (make exEmitter id (exFactory [implF]) [] (exMemory 4)).factory = exFactory [implF] ∧
        (make exEmitter id (exFactory [implF]) [] (exMemory 4)).world = []) :=
  ⟨rfl, (fallback_never_returns exEmitter id).2.1 (exFactory [implF]) [] (exMemory 4) 0 implF
    ⟨memoryDescsFromMemory id (exMemory 4), (), ()⟩ rfl rfl rfl rfl⟩

/-! ### The fallback flags along calls -/

theorem make_keeps_flags (emitter : GraphEmitter Attrs PostOps Desc Mem Ctx G)
    (getDescPtr : Mem → Desc)
    (f : ExecutorFactory Attrs PostOps Desc Mem Ctx) (w : World Attrs PostOps Desc Mem Ctx)
    (memory : MemoryArgs Mem) :
    (make emitter getDescPtr f w memory).factory.m_implementationRequiresFallback
      = f.m_implementationRequiresFallback ∧
    (make emitter getDescPtr f w memory).factory.m_suitableImplementations
      = f.m_suitableImplementations := by
  rcases make_cases emitter getDescPtr f w memory with ⟨hf, _, _⟩ | ⟨impl, _, hf, _, _⟩
  · rw [hf]
    exact ⟨rfl, rfl⟩
  · rw [hf]
    have := create_fields f w impl memory f.m_context
    exact ⟨this.2.2.2.2, this.2.2.2.1⟩

theorem run_makes_keeps_flags (emitter : GraphEmitter Attrs PostOps Desc Mem Ctx G)
    (getDescPtr : Mem → Desc) (calls : List (Call Mem))
    (s : ExecutorFactory Attrs PostOps Desc Mem Ctx × World Attrs PostOps Desc Mem Ctx)
    (hmakes : ∀ call ∈ calls, ∃ memory, call = Call.make memory) :
    (run emitter getDescPtr s calls).1.m_implementationRequiresFallback
      = s.1.m_implementationRequiresFallback ∧
    (run emitter getDescPtr s calls).1.m_suitableImplementations
      = s.1.m_suitableImplementations := by
  induction calls generalizing s with
  | nil => exact ⟨rfl, rfl⟩
  | cons call rest ih =>
    obtain ⟨memory, hcall⟩ := hmakes call (List.mem_cons_self _ _)
    subst hcall
    have hrest := ih (step emitter getDescPtr s (.make memory))
      (fun c hc => hmakes c (List.mem_cons_of_mem _ hc))
    have hstep := make_keeps_flags emitter getDescPtr s.1 s.2 memory
    simp only [run, List.foldl_cons]
    simp only [run] at hrest
    rw [hrest.1, hrest.2]
    exact hstep

/-- Claim C9, as stated, fails after a preconfigure call: over the registry `[implF]`,
preconfigure for batch 1 stores the flag `false` for `implF`; the following make for batch 4
selects `implF`, which requires a fallback for the batch-4 configuration, and yet make takes
the direct path: it returns the cached executor 0 and updates it. -/
theorem make_skips_fallback_after_preconfigure :
    select exAfterPreconfigure.1.m_suitableImplementations (exMemory 4) = .ok 0
    ∧ exAfterPreconfigure.1.m_suitableImplementations[0]? = some implF
    ∧ (implF.requiresFallback ⟨memoryDescsFromMemory id (exMemory 4),
          exAfterPreconfigure.1.m_attrs, exAfterPreconfigure.1.m_postOps⟩).isSome = true
    ∧ exAfterPreconfigure.1.m_implementationRequiresFallback = [false]
    ∧ (make exEmitter id exAfterPreconfigure.1 exAfterPreconfigure.2 (exMemory 4)).result = .ok 0
    ∧ (make exEmitter id exAfterPreconfigure.1 exAfterPreconfigure.2 (exMemory 4)).world
        = exAfterPreconfigure.2 ++ [Event.update 0 (exMemory 4)] :=
  ⟨rfl, rfl, rfl, rfl, rfl, rfl⟩

/-- Claim C9, amended. For every factory state and memory arguments, if the fallback flag
stored for the implementation selected by make is set and that implementation requires a
fallback for the configuration built from the memory arguments, then make takes the fallback
path: its outcome is that of fallback, and it leaves cache and trace as they were, so it
neither creates nor updates an executor. The flag is set for every candidate in every state
reached from construction by make calls alone. -/
theorem make_takes_fallback_when_flagged
    (emitter : GraphEmitter Attrs PostOps Desc Mem Ctx G) (getDescPtr : Mem → Desc)
    (f : ExecutorFactory Attrs PostOps Desc Mem Ctx) (w : World Attrs PostOps Desc Mem Ctx)
    (memory : MemoryArgs Mem) (implId : Nat)
    (impl : ExecutorImplementation Attrs PostOps Desc Mem)
    (fallbackConfig : Config Attrs PostOps Desc)
    (hsel : select f.m_suitableImplementations memory = .ok implId)
    (hidx : f.m_suitableImplementations[implId]? = some impl)
    (hflag : f.m_implementationRequiresFallback[implId]? = some true)
    (hreq : impl.requiresFallback ⟨memoryDescsFromMemory getDescPtr memory, f.m_attrs, f.m_postOps⟩
        = some fallbackConfig) :
    make emitter getDescPtr f w memory =
        ⟨fallback emitter ⟨memoryDescsFromMemory getDescPtr memory, f.m_attrs, f.m_postOps⟩
          fallbackConfig memory f.m_context impl.name, f, w⟩
    ∧ (∃ e, (make emitter getDescPtr f w memory).result = .error e)
    ∧ (make emitter getDescPtr f w memory).factory.m_executors = f.m_executors
    ∧ (make emitter getDescPtr f w memory).world = w
    ∧ (∀ (implementations : List (ExecutorImplementation Attrs PostOps Desc Mem)) (attrs : Attrs)
        (postOps : PostOps) (context : Ctx) (descriptors : MemoryDescArgs Desc)
        (priorityName : String) (calls : List (Call Mem)) (i : Nat),
        (∀ call ∈ calls, ∃ m, call = Call.make m) →
        i < (run emitter getDescPtr
          (ExecutorFactory.ctor implementations attrs postOps context descriptors priorityName,
            []) calls).1.m_suitableImplementations.length →
        (run emitter getDescPtr
          (ExecutorFactory.ctor implementations attrs postOps context descriptors priorityName,
            []) calls).1.m_implementationRequiresFallback[i]? = some true) := by
  have hmk := make_fallback emitter getDescPtr f w memory implId impl fallbackConfig
    hsel hidx hflag hreq
  refine ⟨hmk, ?_, ?_, ?_, ?_⟩
  · rw [hmk]
    exact fallback_isError _ _ _ _ _ _
  · rw [hmk]
  · rw [hmk]
  · intro implementations attrs postOps context descriptors priorityName calls i hmakes hi
    have hkeep := run_makes_keeps_flags emitter getDescPtr calls
      (ExecutorFactory.ctor implementations attrs postOps context descriptors priorityName,
        ([] : World Attrs PostOps Desc Mem Ctx)) hmakes
    rw [hkeep.2] at hi
    rw [hkeep.1]
    simp only [ExecutorFactory.ctor] at hi ⊢
    rw [List.getElem?_replicate]
    simp [hi]

/-- Claim C9, amended, at the newly constructed factory over `[implF]`: make for batch 4
takes the fallback path and leaves the trace empty. -/
theorem make_takes_fallback_when_flagged_witness :
    select (exFactory [implF]).m_suitableImplementations (exMemory 4) = .ok 0
    ∧ (exFactory [implF]).m_implementationRequiresFallback[0]? = some true
    ∧ (make exEmitter id (exFactory [implF]) [] (exMemory 4)).world = [] :=
  ⟨rfl, rfl, (make_takes_fallback_when_flagged exEmitter id (exFactory [implF]) [] (exMemory 4)
    0 implF ⟨memoryDescsFromMemory id (exMemory 4), (), ()⟩ rfl rfl rfl rfl).2.2.2.1⟩

theorem transform_of_lengths (f : ExecutorFactory Attrs PostOps Desc Mem Ctx) (op :
    ExecutorImplementation Attrs PostOps Desc Mem → Bool)
    (hlen : f.m_implementationRequiresFallback.length = f.m_suitableImplementations.length) :
    transform f.m_suitableImplementations f.m_implementationRequiresFallback op
      = some (f.m_suitableImplementations.map op) := by
  unfold transform
  rw [if_pos (le_of_eq hlen.symm), List.drop_eq_nil_of_le (le_of_eq hlen), List.append_nil]

theorem preconfigure_keeps_lengths (emitter : GraphEmitter Attrs PostOps Desc Mem Ctx G)
    (getDescPtr : Mem → Desc)
    (f : ExecutorFactory Attrs PostOps Desc Mem Ctx) (w : World Attrs PostOps Desc Mem Ctx)
    (memory : MemoryArgs Mem)
    (hlen : f.m_implementationRequiresFallback.length = f.m_suitableImplementations.length) :
    (preconfigure emitter getDescPtr f w memory).factory.m_implementationRequiresFallback.length
      = (preconfigure emitter getDescPtr f w memory).factory.m_suitableImplementations.length := by
  rcases preconfigure_of_transform emitter getDescPtr f w memory _
      (transform_of_lengths f _ hlen) with
    ⟨hfac, _, _⟩ | ⟨implId, impl, flag, _, _, _, _, hfac, _, _⟩
  · rw [hfac]
    simp
  · have hfields := create_fields
      { f with m_implementationRequiresFallback :=
          f.m_suitableImplementations.map (fun impl => (impl.requiresFallback
            ⟨memoryDescsFromMemory getDescPtr memory, f.m_attrs, f.m_postOps⟩).isSome) }
      w impl memory f.m_context
    rw [hfac, hfields.2.2.2.2, hfields.2.2.2.1]
    simp

theorem run_keeps_lengths (emitter : GraphEmitter Attrs PostOps Desc Mem Ctx G)
    (getDescPtr : Mem → Desc) (calls : List (Call Mem))
    (s : ExecutorFactory Attrs PostOps Desc Mem Ctx × World Attrs PostOps Desc Mem Ctx)
    (hlen : s.1.m_implementationRequiresFallback.length = s.1.m_suitableImplementations.length) :
    (run emitter getDescPtr s calls).1.m_implementationRequiresFallback.length
      = (run emitter getDescPtr s calls).1.m_suitableImplementations.length := by
  induction calls generalizing s with
  | nil => exact hlen
  | cons call rest ih =>
    simp only [run, List.foldl_cons]
    apply ih
    cases call with
    | preconfigure memory =>
      exact preconfigure_keeps_lengths emitter getDescPtr s.1 s.2 memory hlen
    | make memory =>
      have hkeep := make_keeps_flags emitter getDescPtr s.1 s.2 memory
      simp only [step]
      rw [hkeep.1, hkeep.2]
      exact hlen

/-- Claim C10. In every state of a factory reached from its construction by preconfigure and
make calls, preconfigure sets flag `i`, for every candidate `i`, to whether candidate `i`
requires a fallback for the configuration built from the descriptors of the memory arguments,
whatever the outcome. It succeeds only if select picks an implementation that does not require
a fallback for that configuration, and then the executor cache holds an executor under the
pair of that implementation and the calls preconfigure added to the trace contain no update. -/
theorem preconfigure_contract (emitter : GraphEmitter Attrs PostOps Desc Mem Ctx G)
    (getDescPtr : Mem → Desc)
    (implementations : List (ExecutorImplementation Attrs PostOps Desc Mem)) (attrs : Attrs)
    (postOps : PostOps) (context : Ctx) (descriptors : MemoryDescArgs Desc)
    (priorityName : String) (before : World Attrs PostOps Desc Mem Ctx)
    (calls : List (Call Mem))
    (f : ExecutorFactory Attrs PostOps Desc Mem Ctx) (w : World Attrs PostOps Desc Mem Ctx)
    (memory : MemoryArgs Mem)
    (hreach : (f, w) = run emitter getDescPtr
      (ExecutorFactory.ctor implementations attrs postOps context descriptors priorityName,
        before) calls) :
    (preconfigure emitter getDescPtr f w memory).factory.m_implementationRequiresFallback
        = f.m_suitableImplementations.map (fun impl => (impl.requiresFallback
            ⟨memoryDescsFromMemory getDescPtr memory, f.m_attrs, f.m_postOps⟩).isSome)
    ∧ (preconfigure emitter getDescPtr f w memory).factory.m_suitableImplementations
        = f.m_suitableImplementations
    ∧ ((preconfigure emitter getDescPtr f w memory).result = .ok () →
        ∃ implId impl,
          select f.m_suitableImplementations memory = .ok implId ∧
          f.m_suitableImplementations[implId]? = some impl ∧
          impl.requiresFallback ⟨memoryDescsFromMemory getDescPtr memory, f.m_attrs, f.m_postOps⟩
            = none ∧
          (∃ executor, (preconfigure emitter getDescPtr f w memory).factory.m_executors.lookup
            (impl.type, impl.operationType) = some executor) ∧
          ∃ added, (preconfigure emitter getDescPtr f w memory).world = w ++ added ∧
            updatesOf added = []) := by
  have hlen : f.m_implementationRequiresFallback.length = f.m_suitableImplementations.length := by
    have hrun := run_keeps_lengths emitter getDescPtr calls
      (ExecutorFactory.ctor implementations attrs postOps context descriptors priorityName,
        before) (by simp [ExecutorFactory.ctor])
    rw [← hreach] at hrun
    exact hrun
  have ht := transform_of_lengths f (fun impl => (impl.requiresFallback
    ⟨memoryDescsFromMemory getDescPtr memory, f.m_attrs, f.m_postOps⟩).isSome) hlen
  rcases preconfigure_of_transform emitter getDescPtr f w memory _ ht with
    ⟨hfac, _, e, he⟩ | ⟨implId, impl, flag, hs, hi, hf, hno, hfac, hw, _⟩
  · refine ⟨by rw [hfac], by rw [hfac], ?_⟩
    intro hok
    rw [he] at hok
    cases hok
  · have hfields := create_fields
      { f with m_implementationRequiresFallback :=
          f.m_suitableImplementations.map (fun impl => (impl.requiresFallback
            ⟨memoryDescsFromMemory getDescPtr memory, f.m_attrs, f.m_postOps⟩).isSome) }
      w impl memory f.m_context
    refine ⟨by rw [hfac, hfields.2.2.2.2], by rw [hfac, hfields.2.2.2.1], ?_⟩
    intro _
    have hflag : flag = (impl.requiresFallback
        ⟨memoryDescsFromMemory getDescPtr memory, f.m_attrs, f.m_postOps⟩).isSome := by
      have := transform_getElem? _ _ _ _ ht implId impl hi
      rw [hf] at this
      exact Option.some.inj this
    have hnone : impl.requiresFallback
        ⟨memoryDescsFromMemory getDescPtr memory, f.m_attrs, f.m_postOps⟩ = none := by
      cases hr : impl.requiresFallback
          ⟨memoryDescsFromMemory getDescPtr memory, f.m_attrs, f.m_postOps⟩ with
      | none => rfl
      | some c =>
        rw [hr] at hflag hno
        simp [hflag] at hno
    refine ⟨implId, impl, hs, hi, hnone, ?_, ?_⟩
    · rw [hfac]
      exact ⟨_, create_lookup_result _ w impl memory f.m_context⟩
    · rw [hw]
      exact create_adds_no_update _ w impl memory f.m_context

/-- Claim C10 at the newly constructed factory over `[implF]`: preconfigure for batch 1 succeeds, stores the
flag `false`, caches executor 0 under the pair of `implF` and leaves a trace of one create
call. -/
theorem preconfigure_contract_witness :
    (preconfigure exEmitter id (exFactory [implF]) [] (exMemory 1)).result = .ok ()
    ∧ (preconfigure exEmitter id (exFactory [implF]) []
        (exMemory 1)).factory.m_implementationRequiresFallback
        = [implF].map (fun impl => (impl.requiresFallback
            ⟨memoryDescsFromMemory id (exMemory 1), (), ()⟩).isSome)
    ∧ (preconfigure exEmitter id (exFactory [implF]) [] (exMemory 1)).factory.m_executors
        = [((4, 0), 0)]
    ∧ (preconfigure exEmitter id (exFactory [implF]) [] (exMemory 1)).world
        = [Event.create implF () () (exMemory 1) () 0] :=
  ⟨rfl, (preconfigure_contract exEmitter id [implF] () () () (exMemory 1) "" [] []
    (exFactory [implF]) [] (exMemory 1) rfl).1, rfl, rfl⟩

/-! ### `getProperMemoryDescriptors` and the empty candidate list -/

/-- Claim C11. For every factory with at least one candidate and every descriptor set,
getProperMemoryDescriptors returns the descriptors of the replacement configuration when
requiresFallback of the first candidate, applied to the config of the given descriptors and
the attributes and post-ops of the factory, returns one, and the given descriptors otherwise;
the result is the same whatever the other candidates and the flags are, and factory and trace
are unchanged. -/
theorem getProperMemoryDescriptors_contract (f : ExecutorFactory Attrs PostOps Desc Mem Ctx)
    (w : World Attrs PostOps Desc Mem Ctx) (descriptors : MemoryDescArgs Desc)
    (first : ExecutorImplementation Attrs PostOps Desc Mem)
    (others : List (ExecutorImplementation Attrs PostOps Desc Mem))
    (hcands : f.m_suitableImplementations = first :: others) :
    (getProperMemoryDescriptors f w descriptors).result
        = .ok (match first.requiresFallback ⟨descriptors, f.m_attrs, f.m_postOps⟩ with
          | some fallbackConfig => fallbackConfig.descs
          | none => descriptors)
    ∧ (getProperMemoryDescriptors f w descriptors).factory = f
    ∧ (getProperMemoryDescriptors f w descriptors).world = w
    ∧ (∀ (others₂ : List (ExecutorImplementation Attrs PostOps Desc Mem)) (flags₂ : List Bool)
        (executors₂ : List ((ExecutorType × OperationType) × ExecutorPtr)),
        (getProperMemoryDescriptors
          { f with m_suitableImplementations := first :: others₂
                   m_implementationRequiresFallback := flags₂
                   m_executors := executors₂ } w descriptors).result
          = (getProperMemoryDescriptors f w descriptors).result) := by
  have hmain : ∀ g : ExecutorFactory Attrs PostOps Desc Mem Ctx,
      g.m_suitableImplementations.head? = some first →
      g.m_attrs = f.m_attrs → g.m_postOps = f.m_postOps →
      (getProperMemoryDescriptors g w descriptors).result
        = .ok (match first.requiresFallback ⟨descriptors, f.m_attrs, f.m_postOps⟩ with
          | some fallbackConfig => fallbackConfig.descs
          | none => descriptors) ∧
      (getProperMemoryDescriptors g w descriptors).factory = g ∧
      (getProperMemoryDescriptors g w descriptors).world = w := by
    intro g hhead hattrs hpost
    cases hreq : first.requiresFallback ⟨descriptors, f.m_attrs, f.m_postOps⟩ with
    | none => simp [getProperMemoryDescriptors, hhead, hattrs, hpost, hreq]
    | some fallbackConfig => simp [getProperMemoryDescriptors, hhead, hattrs, hpost, hreq]
  have hf := hmain f (by rw [hcands]; rfl) rfl rfl
  refine ⟨hf.1, hf.2.1, hf.2.2, ?_⟩
  intro others₂ flags₂ executors₂
  rw [hf.1]
  exact (hmain { f with m_suitableImplementations := first :: others₂
                        m_implementationRequiresFallback := flags₂
                        m_executors := executors₂ } rfl rfl rfl).1

/-- Claim C11 at the factory over `[implG, implA]`: for the batch-4 descriptors the first
candidate asks for the batch-1 descriptors, which are returned. -/
theorem getProperMemoryDescriptors_contract_witness :
    (exFactory [implG, implA]).m_suitableImplementations = [implG]
    ∧ (getProperMemoryDescriptors (exFactory [implG, implA]) [] (exMemory 4)).result
        = .ok (exMemory 1) :=
  ⟨rfl, (getProperMemoryDescriptors_contract (exFactory [implG, implA]) [] (exMemory 4)
    implG [] rfl).1⟩

/-- Claim C18, a defect of the code. When filter returns an empty list, constructing the
ExecutorFactory does not fail: the constructor only stores the empty list, so a factory with
an empty candidate list, no flags and an empty executor cache exists. On that factory
getProperMemoryDescriptors has no first candidate to consult and reads the front of the empty
vector, an access out of range, for every descriptor argument; the sibling entry points make
and preconfigure reach select, which fails with its assertion error. The code relies on a
non-empty candidate list that nothing establishes. -/
theorem empty_filter_reaches_unchecked_front
    (implementations : List (ExecutorImplementation Attrs PostOps Desc Mem)) (attrs : Attrs)
    (postOps : PostOps) (context : Ctx) (descriptors : MemoryDescArgs Desc)
    (priorityName : String)
    (hempty : filter implementations attrs postOps descriptors priorityName = []) :
    (ExecutorFactory.ctor implementations attrs postOps context descriptors
        priorityName).m_suitableImplementations = []
    ∧ (ExecutorFactory.ctor implementations attrs postOps context descriptors
        priorityName).m_implementationRequiresFallback = []
    ∧ (ExecutorFactory.ctor implementations attrs postOps context descriptors
        priorityName).m_executors = []
    ∧ (∀ (w : World Attrs PostOps Desc Mem Ctx) (requested : MemoryDescArgs Desc),
        (getProperMemoryDescriptors (ExecutorFactory.ctor implementations attrs postOps context
            descriptors priorityName) w requested).result = .error .outOfRange)
    ∧ (∀ (Graph : Type) (emitter : GraphEmitter Attrs PostOps Desc Mem Ctx Graph)
        (getDescPtr : Mem → Desc)
        (w : World Attrs PostOps Desc Mem Ctx) (memory : MemoryArgs Mem),
        (make emitter getDescPtr (ExecutorFactory.ctor implementations attrs postOps context
            descriptors priorityName) w memory).result
          = .error (.assertFailed "Failed to select an implemetation")
        ∧ (preconfigure emitter getDescPtr (ExecutorFactory.ctor implementations attrs postOps
            context descriptors priorityName) w memory).result
          = .error (.assertFailed "Failed to select an implemetation")) := by
  have hsel : ∀ memory : MemoryArgs Mem,
      select ([] : List (ExecutorImplementation Attrs PostOps Desc Mem)) memory
        = .error (.assertFailed "Failed to select an implemetation") := fun _ => rfl
  refine ⟨by simp [ExecutorFactory.ctor, hempty], by simp [ExecutorFactory.ctor, hempty],
    by simp [ExecutorFactory.ctor], ?_, ?_⟩
  · intro w requested
    simp [getProperMemoryDescriptors, ExecutorFactory.ctor, hempty]
  · intro Graph emitter getDescPtr w memory
    refine ⟨?_, ?_⟩ <;>
      simp [make, preconfigure, transform, ExecutorFactory.ctor, hempty, hsel]

/-- Claim C18 at two failing inputs. Over the registry `[implN]`, whose implementation
supports no configuration, and over the registry `[implA, implB]` with the implementation
priority name `"missing"`, which names neither, filter returns the empty list, the
constructor yields a factory without candidates, getProperMemoryDescriptors reads the empty
vector out of range, and make fails in select. -/
theorem empty_filter_reaches_unchecked_front_witness :
    filter [implN] () () (exMemory 1) "" = []
    ∧ filter [implA, implB] () () (exMemory 1) "missing" = []
    ∧ (ExecutorFactory.ctor [implN] () () () (exMemory 1) "").m_suitableImplementations = []
    ∧ (getProperMemoryDescriptors (ExecutorFactory.ctor [implN] () () () (exMemory 1) "")
        ([] : World Unit Unit ExDesc ExDesc Unit) (exMemory 1)).result = .error .outOfRange
    ∧ (getProperMemoryDescriptors
        (ExecutorFactory.ctor [implA, implB] () () () (exMemory 1) "missing")
        ([] : World Unit Unit ExDesc ExDesc Unit) (exMemory 1)).result = .error .outOfRange
    ∧ (make exEmitter id (ExecutorFactory.ctor [implN] () () () (exMemory 1) "") []
        (exMemory 1)).result = .error (.assertFailed "Failed to select an implemetation") :=
  ⟨rfl, rfl, rfl,
    (empty_filter_reaches_unchecked_front [implN] () () () (exMemory 1) "" rfl).2.2.2.1
      [] (exMemory 1),
    (empty_filter_reaches_unchecked_front [implA, implB] () () () (exMemory 1) "missing"
      rfl).2.2.2.1 [] (exMemory 1),
    ((empty_filter_reaches_unchecked_front [implN] () () () (exMemory 1) "" rfl).2.2.2.2
      Unit exEmitter id [] (exMemory 1)).1⟩

end FactoryTheorems

section PrimitiveTheorems

/-! ### `useWeightsDecompressionImpl` -/

/-- Claim C16. useWeightsDecompressionImpl returns true iff the AVX2 capability is available,
the input type is f32 or bf16 and the weights type is one of u8, nf4, u4, i4; it is a function
of the capability and the two element types alone, so descriptors of the same precisions give
the same answer whatever their shapes. -/
theorem useWeightsDecompressionImpl_iff (mayiuse_avx2 : Bool)
    (inputType weightsType : ElementType) :
    (useWeightsDecompressionImpl mayiuse_avx2 inputType weightsType = true ↔
        mayiuse_avx2 = true ∧ (inputType = .f32 ∨ inputType = .bf16) ∧
        (weightsType = .u8 ∨ weightsType = .nf4 ∨ weightsType = .u4 ∨ weightsType = .i4))
    ∧ (∀ src₁ src₂ wei₁ wei₂ : MemoryDesc,
        src₁.precision = src₂.precision → wei₁.precision = wei₂.precision →
        useWeightsDecompressionImpl mayiuse_avx2 src₁.precision wei₁.precision
          = useWeightsDecompressionImpl mayiuse_avx2 src₂.precision wei₂.precision) := by
  constructor
  · simp [useWeightsDecompressionImpl, one_of, and_assoc]
  · intro src₁ src₂ wei₁ wei₂ hsrc hwei
    rw [hsrc, hwei]

/-! ### The cache key -/

theorem descStep_eq_true_iff {D A : Type} (dnnl : Dnnl D A) (result : Bool) (lhs rhs : DescPtr) :
    descStep dnnl result lhs rhs = true ↔ result = true ∧ sameDescriptor dnnl lhs rhs := by
  cases lhs with
  | none =>
    cases rhs with
    | none => simp [descStep, sameDescriptor]
    | some q => simp [descStep, sameDescriptor]
  | some p =>
    cases rhs with
    | none => simp [descStep, sameDescriptor]
    | some q =>
      by_cases hpq : p = q
      · subst hpq
        simp [descStep, sameDescriptor]
      · simp [descStep, sameDescriptor, hpq]

theorem key_eq_iff_fields {D A : Type} (dnnl : Dnnl D A) (a b : Key A) :
    Key.eq dnnl a b = true ↔
      sameDescriptor dnnl a.src b.src ∧ sameDescriptor dnnl a.wei b.wei ∧
      sameDescriptor dnnl a.bias b.bias ∧ sameDescriptor dnnl a.dst b.dst ∧
      dnnl.attrEq a.attr b.attr = true ∧ a.sparseWeights = b.sparseWeights ∧
      a.transposedWeights = b.transposedWeights := by
  unfold Key.eq
  simp only [Bool.and_eq_true, descStep_eq_true_iff, beq_iff_eq, true_and]
  tauto

/-- Claim C12. Key equality holds iff, for each of src, wei, bias and dst, the two
descriptors are both absent or both present with structurally equal dnnl descriptors (the same
object counting as equal), the attributes compare equal, and sparseWeights and
transposedWeights are equal. In particular keys that differ in the identity of a descriptor
object only, the two objects holding structurally equal descriptors, compare equal, and a key
with an absent descriptor never equals a key with that descriptor present. -/
theorem key_eq_contract {D A : Type} (dnnl : Dnnl D A) :
    (∀ a b : Key A, Key.eq dnnl a b = true ↔
        sameDescriptor dnnl a.src b.src ∧ sameDescriptor dnnl a.wei b.wei ∧
        sameDescriptor dnnl a.bias b.bias ∧ sameDescriptor dnnl a.dst b.dst ∧
        dnnl.attrEq a.attr b.attr = true ∧ a.sparseWeights = b.sparseWeights ∧
        a.transposedWeights = b.transposedWeights)
    ∧ (∀ (a b : Key A) (p₁ q₁ p₂ q₂ p₃ q₃ p₄ q₄ : Nat),
        a.src = some p₁ → b.src = some q₁ → a.wei = some p₂ → b.wei = some q₂ →
        a.bias = some p₃ → b.bias = some q₃ → a.dst = some p₄ → b.dst = some q₄ →
        dnnl.descEq (dnnl.getDnnlDesc p₁) (dnnl.getDnnlDesc q₁) = true →
        dnnl.descEq (dnnl.getDnnlDesc p₂) (dnnl.getDnnlDesc q₂) = true →
        dnnl.descEq (dnnl.getDnnlDesc p₃) (dnnl.getDnnlDesc q₃) = true →
        dnnl.descEq (dnnl.getDnnlDesc p₄) (dnnl.getDnnlDesc q₄) = true →
        dnnl.attrEq a.attr b.attr = true → a.sparseWeights = b.sparseWeights →
        a.transposedWeights = b.transposedWeights →
        Key.eq dnnl a b = true)
    ∧ (∀ a b : Key A,
        (a.src.isSome ≠ b.src.isSome ∨ a.wei.isSome ≠ b.wei.isSome ∨
          a.bias.isSome ≠ b.bias.isSome ∨ a.dst.isSome ≠ b.dst.isSome) →
        Key.eq dnnl a b = false) := by
  refine ⟨key_eq_iff_fields dnnl, ?_, ?_⟩
  · intro a b p₁ q₁ p₂ q₂ p₃ q₃ p₄ q₄ h₁ g₁ h₂ g₂ h₃ g₃ h₄ g₄ e₁ e₂ e₃ e₄ hattr hs ht
    rw [key_eq_iff_fields]
    exact ⟨Or.inr ⟨p₁, q₁, h₁, g₁, Or.inr e₁⟩, Or.inr ⟨p₂, q₂, h₂, g₂, Or.inr e₂⟩,
      Or.inr ⟨p₃, q₃, h₃, g₃, Or.inr e₃⟩, Or.inr ⟨p₄, q₄, h₄, g₄, Or.inr e₄⟩, hattr, hs, ht⟩
  · intro a b hdiff
    rw [← Bool.not_eq_true, key_eq_iff_fields]
    have hsame : ∀ l r : DescPtr, sameDescriptor dnnl l r → l.isSome = r.isSome := by
      intro l r h
      rcases h with ⟨hl, hr⟩ | ⟨p, q, hl, hr, _⟩
      · rw [hl, hr]
      · rw [hl, hr]
        rfl
    rintro ⟨h₁, h₂, h₃, h₄, _⟩
    rcases hdiff with h | h | h | h
    · exact h (hsame _ _ h₁)
    · exact h (hsame _ _ h₂)
    · exact h (hsame _ _ h₃)
    · exact h (hsame _ _ h₄)

/-- Claim C12 at two keys over distinct descriptor objects: addresses 0 and 1 hold equal
descriptors, and so do 2 and 3. -/
theorem key_eq_contract_witness :
    Key.eq exDnnl (exKey 0 2) (exKey 1 3) = true
    ∧ (Key.eq exDnnl (exKey 0 2) (exKey 1 3) = true ↔
        sameDescriptor exDnnl (exKey 0 2).src (exKey 1 3).src ∧
        sameDescriptor exDnnl (exKey 0 2).wei (exKey 1 3).wei ∧
        sameDescriptor exDnnl (exKey 0 2).bias (exKey 1 3).bias ∧
        sameDescriptor exDnnl (exKey 0 2).dst (exKey 1 3).dst ∧
        exDnnl.attrEq (exKey 0 2).attr (exKey 1 3).attr = true ∧
        (exKey 0 2).sparseWeights = (exKey 1 3).sparseWeights ∧
        (exKey 0 2).transposedWeights = (exKey 1 3).transposedWeights) :=
  ⟨rfl, (key_eq_contract exDnnl).1 (exKey 0 2) (exKey 1 3)⟩

theorem hashStep_eq_of_same {D A : Type} (dnnl : Dnnl D A)
    (hmd : ∀ x y, dnnl.descEq x y = true → dnnl.get_md_hash x = dnnl.get_md_hash y)
    (seed : Nat) (lhs rhs : DescPtr) (hsame : sameDescriptor dnnl lhs rhs) :
    hashStep dnnl seed lhs = hashStep dnnl seed rhs := by
  rcases hsame with ⟨hl, hr⟩ | ⟨p, q, hl, hr, hpq | heq⟩
  · rw [hl, hr]
  · rw [hl, hr, hpq]
  · rw [hl, hr]
    simp only [hashStep]
    rw [hmd _ _ heq]

theorem hashStep_eq_of_content {D A : Type} (dnnl : Dnnl D A) (seed : Nat) (lhs rhs : DescPtr)
    (h : lhs.map dnnl.getDnnlDesc = rhs.map dnnl.getDnnlDesc) :
    hashStep dnnl seed lhs = hashStep dnnl seed rhs := by
  cases lhs with
  | none =>
    cases rhs with
    | none => rfl
    | some q => simp at h
  | some p =>
    cases rhs with
    | none => simp at h
    | some q =>
      simp only [Option.map_some', Option.some.injEq] at h
      simp only [hashStep]
      rw [h]

/-- Claim C13. Given that the descriptor hash and the attribute hash are consistent with
descriptor and attribute equality, equal keys have equal hashes. The hash is a function of the
presence and the contents of the four descriptors, the attributes and the two flags: keys that
agree on these have equal hashes, whatever the addresses of their descriptor objects. -/
theorem key_hash_consistent {D A : Type} (dnnl : Dnnl D A)
    (hmd : ∀ x y, dnnl.descEq x y = true → dnnl.get_md_hash x = dnnl.get_md_hash y)
    (hattr : ∀ x y, dnnl.attrEq x y = true → dnnl.get_attr_hash x = dnnl.get_attr_hash y) :
    (∀ a b : Key A, Key.eq dnnl a b = true → Key.hash dnnl a = Key.hash dnnl b)
    ∧ (∀ a b : Key A,
        a.src.map dnnl.getDnnlDesc = b.src.map dnnl.getDnnlDesc →
        a.wei.map dnnl.getDnnlDesc = b.wei.map dnnl.getDnnlDesc →
        a.bias.map dnnl.getDnnlDesc = b.bias.map dnnl.getDnnlDesc →
        a.dst.map dnnl.getDnnlDesc = b.dst.map dnnl.getDnnlDesc →
        a.attr = b.attr → a.sparseWeights = b.sparseWeights →
        a.transposedWeights = b.transposedWeights →
        Key.hash dnnl a = Key.hash dnnl b) := by
  constructor
  · intro a b heq
    obtain ⟨h₁, h₂, h₃, h₄, ha, hs, ht⟩ := (key_eq_iff_fields dnnl a b).1 heq
    unfold Key.hash
    simp only [List.foldl_cons, List.foldl_nil]
    rw [hashStep_eq_of_same dnnl hmd 0 a.src b.src h₁,
      hashStep_eq_of_same dnnl hmd _ a.wei b.wei h₂,
      hashStep_eq_of_same dnnl hmd _ a.bias b.bias h₃,
      hashStep_eq_of_same dnnl hmd _ a.dst b.dst h₄, hattr _ _ ha, hs, ht]
  · intro a b h₁ h₂ h₃ h₄ ha hs ht
    unfold Key.hash
    simp only [List.foldl_cons, List.foldl_nil]
    rw [hashStep_eq_of_content dnnl 0 a.src b.src h₁,
      hashStep_eq_of_content dnnl _ a.wei b.wei h₂,
      hashStep_eq_of_content dnnl _ a.bias b.bias h₃,
      hashStep_eq_of_content dnnl _ a.dst b.dst h₄, ha, hs, ht]

/-- Claim C13 at two keys over distinct descriptor objects with equal contents: they are
equal and hash alike. -/
theorem key_hash_consistent_witness :
    Key.eq exDnnl (exKey 0 2) (exKey 1 3) = true
    ∧ Key.hash exDnnl (exKey 0 2) = Key.hash exDnnl (exKey 1 3) :=
  ⟨rfl, (key_hash_consistent exDnnl
    (fun x y h => by
      have hxy : x = y := by simpa [exDnnl] using h
      rw [hxy])
    (fun x y h => by
      have hxy : x = y := by simpa [exDnnl] using h
      rw [hxy])).1 (exKey 0 2) (exKey 1 3) rfl⟩

/-! ### Dummy shapes -/

theorem setBatchDims_ok (inShape : VectorDims) (startIdx : Nat) (pre : List Nat) (co : Nat) :
    ∀ (remaining i : Nat) (filler : List Nat),
      pre.length = startIdx → filler.length = remaining →
      i + remaining ≤ inShape.length →
      startIdx + i + remaining + 1 < sizeModulus →
      setBatchDims inShape startIdx remaining i (pre ++ inShape.take i ++ filler ++ [co])
        = .ok (pre ++ inShape.take (i + remaining) ++ [co]) := by
  intro remaining
  induction remaining with
  | zero =>
    intro i filler _ hfill _ _
    have : filler = [] := List.length_eq_zero.1 hfill
    subst this
    simp [setBatchDims]
  | succ n ih =>
    intro i filler hpre hfill hin hsz
    obtain ⟨x, rest, rfl⟩ : ∃ x rest, filler = x :: rest := by
      cases filler with
      | nil => simp at hfill
      | cons x rest => exact ⟨x, rest, rfl⟩
    have hi : i < inShape.length := by omega
    have hmod : (i + startIdx) % sizeModulus = startIdx + i := by
      rw [Nat.mod_eq_of_lt (by omega)]; omega
    have htake : (inShape.take i).length = i := by simp; omega
    unfold setBatchDims
    rw [hmod]
    have hlen : ¬ (pre ++ inShape.take i ++ x :: rest ++ [co]).length ≤ startIdx + i := by
      simp [htake, hpre]
    rw [if_neg hlen]
    simp only [List.getElem?_eq_getElem hi]
    have hset : (pre ++ inShape.take i ++ x :: rest ++ [co]).set (startIdx + i) inShape[i]
        = pre ++ inShape.take (i + 1) ++ rest ++ [co] := by
      have h1 : pre ++ inShape.take i ++ x :: rest ++ [co]
          = (pre ++ inShape.take i) ++ (x :: (rest ++ [co])) := by simp
      have h2 : (pre ++ inShape.take i).length = startIdx + i := by simp [htake, hpre]
      rw [h1, List.set_append_right _ _ (le_of_eq h2), h2, Nat.sub_self, List.set_cons_zero,
        List.take_succ, List.getElem?_eq_getElem hi]
      simp only [Option.toList, List.append_assoc, List.cons_append, List.nil_append]
    rw [hset]
    have hrec := ih (i + 1) rest hpre (by simpa using hfill) (by omega) (by omega)
    have e : i + 1 + n = i + (n + 1) := by omega
    rw [e] at hrec
    exact hrec

theorem setBatchDims_isOk_iff (inShape : VectorDims) (startIdx : Nat) :
    ∀ (remaining i : Nat) (outputShape : VectorDims),
      (∃ out, setBatchDims inShape startIdx remaining i outputShape = .ok out) ↔
        ∀ j, i ≤ j → j < i + remaining →
          (j + startIdx) % sizeModulus < outputShape.length ∧ j < inShape.length := by
  intro remaining
  induction remaining with
  | zero =>
    intro i outputShape
    simp only [setBatchDims, Except.ok.injEq, exists_eq', true_iff]
    intro j h₁ h₂
    omega
  | succ n ih =>
    intro i outputShape
    unfold setBatchDims
    by_cases hw : outputShape.length ≤ (i + startIdx) % sizeModulus
    · rw [if_pos hw]
      simp only [reduceCtorEq, exists_false, false_iff, not_forall]
      exact ⟨i, le_refl i, by omega, fun h => absurd h.1 (by omega)⟩
    · rw [if_neg hw]
      cases hr : inShape[i]? with
      | none =>
        simp only [reduceCtorEq, exists_false, false_iff, not_forall]
        have hlen : inShape.length ≤ i := List.getElem?_eq_none_iff.1 hr
        exact ⟨i, le_refl i, by omega, fun h => absurd h.2 (by omega)⟩
      | some dim =>
        have hlen : i < inShape.length := (List.getElem?_eq_some.1 hr).1
        simp only
        rw [ih (i + 1) (outputShape.set ((i + startIdx) % sizeModulus) dim)]
        simp only [List.length_set]
        constructor
        · intro h j h₁ h₂
          by_cases hj : j = i
          · subst hj
            exact ⟨by omega, hlen⟩
          · exact h j (by omega) (by omega)
        · intro h j h₁ h₂
          exact h j (by omega) (by omega)

theorem makeDummyOutputDims_isOk_iff (inShape wShape : VectorDims) (out_rank : Nat) :
    (∃ out, makeDummyOutputDims inShape wShape out_rank = .ok out) ↔
      indicesInRange inShape wShape out_rank := by
  unfold makeDummyOutputDims indicesInRange
  by_cases hr : out_rank = 0
  · simp [hr]
  · cases hw : wShape[0]? with
    | none =>
      have : wShape.length = 0 := by
        have := List.getElem?_eq_none_iff.1 hw
        omega
      simp [hr, this]
    | some co =>
      have hwl : 0 < wShape.length := (List.getElem?_eq_some.1 hw).1
      simp only [hr, if_false]
      rw [setBatchDims_isOk_iff]
      simp only [List.length_set, List.length_replicate, Nat.zero_add, Nat.zero_le, true_implies]
      constructor
      · intro h
        exact ⟨hwl, Nat.pos_of_ne_zero hr, h⟩
      · intro h
        exact h.2.2

theorem indicesInRange_iff_precondition (inShape wShape : VectorDims) (out_rank : Nat)
    (hin : inShape.length < sizeModulus) (hw : wShape.length < sizeModulus)
    (hout : out_rank < sizeModulus) :
    indicesInRange inShape wShape out_rank ↔ dummyOutputPrecondition inShape wShape out_rank := by
  unfold indicesInRange dummyOutputPrecondition
  have hne : wShape ≠ [] ↔ 0 < wShape.length := by
    rw [List.length_pos]
  rw [hne]
  simp only [sizeSub, sizeModulus] at *
  constructor
  · rintro ⟨h₁, h₂, h₃⟩
    refine ⟨h₁, h₂, ?_, ?_⟩
    · by_contra hlt
      have := h₃ inShape.length (by omega)
      omega
    · by_contra hlt
      by_cases hge : wShape.length - 1 ≤ inShape.length
      · have := h₃ 0 (by omega)
        omega
      · have := h₃ inShape.length (by omega)
        omega
  · rintro ⟨h₁, h₂, h₃, h₄⟩
    refine ⟨h₁, h₂, ?_⟩
    intro i hi
    omega

theorem replicate_set_last (n co : Nat) :
    (List.replicate (n + 1) 1).set n co = List.replicate n 1 ++ [co] := by
  rw [List.replicate_succ', List.set_append_right _ _ (by simp)]
  simp

theorem makeDummyOutputDims_eq (inShape ws : VectorDims) (co out_rank : Nat)
    (hw : (co :: ws).length < sizeModulus)
    (hout : out_rank < sizeModulus)
    (hrank : ws.length ≤ inShape.length)
    (hroom : (inShape.length - ws.length) + 1 ≤ out_rank) :
    makeDummyOutputDims inShape (co :: ws) out_rank
      = .ok (List.replicate (out_rank - (inShape.length - ws.length) - 1) 1
          ++ inShape.take (inShape.length - ws.length) ++ [co]) := by
  have hb : sizeSub inShape.length (sizeSub (co :: ws).length 1)
      = inShape.length - ws.length := by
    simp only [sizeSub, sizeModulus, List.length_cons] at *
    omega
  have hs : sizeSub (sizeSub out_rank (inShape.length - ws.length)) 1
      = out_rank - (inShape.length - ws.length) - 1 := by
    simp only [sizeSub, sizeModulus, List.length_cons] at *
    omega
  have hr : out_rank ≠ 0 := by omega
  unfold makeDummyOutputDims
  simp only [hr, if_false, List.getElem?_cons_zero, hb, hs]
  have hinit : (List.replicate out_rank 1).set (out_rank - 1) co
      = List.replicate (out_rank - (inShape.length - ws.length) - 1) 1 ++ inShape.take 0
        ++ List.replicate (inShape.length - ws.length) 1 ++ [co] := by
    obtain ⟨n, rfl⟩ : ∃ n, out_rank = n + 1 := ⟨out_rank - 1, by omega⟩
    have e : n + 1 - (inShape.length - ws.length) - 1 + (inShape.length - ws.length) = n := by
      omega
    rw [Nat.add_sub_cancel, replicate_set_last, List.take_zero, List.append_nil,
      List.append_replicate_replicate, e]
  rw [hinit]
  have hloop := setBatchDims_ok inShape (out_rank - (inShape.length - ws.length) - 1)
    (List.replicate (out_rank - (inShape.length - ws.length) - 1) 1) co
    (inShape.length - ws.length) 0 (List.replicate (inShape.length - ws.length) 1)
    (by simp) (by simp) (by omega) (by simp only [sizeModulus] at *; omega)
  rw [Nat.zero_add] at hloop
  exact hloop

theorem subtractionWraps_of_not_precondition (inShape wShape : VectorDims) (out_rank : Nat)
    (hin : inShape.length < sizeModulus) (hw : wShape.length < sizeModulus)
    (hout : out_rank < sizeModulus)
    (hnot : ¬ dummyOutputPrecondition inShape wShape out_rank) :
    subtractionWraps inShape wShape out_rank := by
  unfold dummyOutputPrecondition at hnot
  unfold subtractionWraps
  have hne : wShape ≠ [] ↔ 0 < wShape.length := by
    rw [List.length_pos]
  rw [hne] at hnot
  simp only [sizeSub, sizeModulus] at *
  omega

theorem write_out_of_range_of_not_precondition (inShape wShape : VectorDims) (out_rank : Nat)
    (hin : inShape.length < sizeModulus)
    (hsum : out_rank + wShape.length < sizeModulus)
    (hne : wShape ≠ [])
    (hnot : ¬ dummyOutputPrecondition inShape wShape out_rank) :
    ¬ writesInRange inShape wShape out_rank := by
  unfold dummyOutputPrecondition at hnot
  unfold writesInRange
  have hpos : 0 < wShape.length := List.length_pos.2 hne
  have hnot₂ : ¬ (1 ≤ out_rank ∧ wShape.length - 1 ≤ inShape.length ∧
      (inShape.length - (wShape.length - 1)) + 1 ≤ out_rank) := fun h => hnot ⟨hne, h⟩
  rintro ⟨h₁, h₂⟩
  have h₀ := h₂ 0
  simp only [sizeSub, sizeModulus] at h₀ hin hsum
  by_cases hb : 0 < (inShape.length + 18446744073709551616
      - (wShape.length + 18446744073709551616 - 1) % 18446744073709551616)
      % 18446744073709551616
  · have := h₀ hb
    omega
  · omega

theorem makeDummyOutputDims_error (inShape wShape : VectorDims) (out_rank : Nat)
    (hnot : ¬ ∃ out, makeDummyOutputDims inShape wShape out_rank = .ok out) :
    makeDummyOutputDims inShape wShape out_rank = .error .outOfRange := by
  have hloop : ∀ (remaining i startIdx : Nat) (outputShape : VectorDims) (e : Err),
      setBatchDims inShape startIdx remaining i outputShape = .error e → e = .outOfRange := by
    intro remaining
    induction remaining with
    | zero =>
      intro i startIdx outputShape e h
      simp [setBatchDims] at h
    | succ n ih =>
      intro i startIdx outputShape e h
      unfold setBatchDims at h
      split at h
      · simp only [Except.error.injEq] at h
        exact h.symm
      · split at h
        · simp only [Except.error.injEq] at h
          exact h.symm
        · exact ih _ _ _ _ h
  cases hres : makeDummyOutputDims inShape wShape out_rank with
  | ok out => exact absurd ⟨out, hres⟩ hnot
  | error e =>
    have he : e = .outOfRange := by
      unfold makeDummyOutputDims at hres
      split at hres
      · simp only [Except.error.injEq] at hres
        exact hres.symm
      · split at hres
        · simp only [Except.error.injEq] at hres
          exact hres.symm
        · exact hloop _ _ _ _ _ hres
    rw [he]

theorem set_last_eq (dims : VectorDims) (value : Nat) (hne : dims ≠ []) :
    dims.set (dims.length - 1) value = dims.dropLast ++ [value] := by
  rcases List.eq_nil_or_concat dims with h | ⟨pre, x, rfl⟩
  · exact absurd h hne
  · rw [List.concat_eq_append, List.length_append, List.length_singleton, Nat.add_sub_cancel,
      List.set_append_right _ _ (le_refl _), Nat.sub_self, List.set_cons_zero,
      List.dropLast_concat]

theorem makeDummyInputDims_eq (dummyVal : Nat) (inShape wShape : Shape)
    (hbounds : inShape.minDims.length = inShape.maxDims.length)
    (hin : inShape.minDims ≠ [])
    (hstatic : wShape.isDynamic = false) (back : Nat)
    (hback : wShape.minDims.getLast? = some back) :
    ∃ inDummy, makeDummyInputDims dummyVal inShape wShape = .ok inDummy ∧
      inDummy.getLast? = some back ∧ inDummy.length = inShape.minDims.length := by
  have hmax : inShape.maxDims ≠ [] := by
    intro h
    rw [h] at hbounds
    exact hin (List.length_eq_zero.1 hbounds)
  have hminlen : inShape.minDims.length ≠ 0 := fun h => hin (List.length_eq_zero.1 h)
  have hmaxlen : inShape.maxDims.length ≠ 0 := fun h => hmax (List.length_eq_zero.1 h)
  have hs : (wShape.minDims != wShape.maxDims) = false := hstatic
  refine ⟨List.zipWith (fun lo hi => if lo = hi then lo else min hi (max lo dummyVal))
    inShape.minDims.dropLast inShape.maxDims.dropLast ++ [back], ?_, by simp, ?_⟩
  · simp only [makeDummyInputDims, Shape.getStaticDims, hs, Bool.false_eq_true, if_false,
      bind, Except.bind, hback, setBack, hminlen, hmaxlen, set_last_eq _ _ hin,
      set_last_eq _ _ hmax, makeDummyShape, Shape.ofDims, Shape.isDynamic, bne_self_eq_false]
    rw [List.zipWith_append _ _ _ _ _ (by simp [hbounds])]
    simp
  · simp [hbounds]
    omega

theorem makeDummyOutputDims_ok_last (inShape wShape : VectorDims) (out_rank co : Nat)
    (hco : wShape[0]? = some co)
    (hw : wShape.length < sizeModulus) (hout : out_rank < sizeModulus)
    (hrank : wShape.length - 1 ≤ inShape.length)
    (hroom : (inShape.length - (wShape.length - 1)) + 1 ≤ out_rank) :
    ∃ out, makeDummyOutputDims inShape wShape out_rank = .ok out ∧
      out.length = out_rank ∧ out.getLast? = some co := by
  obtain ⟨ws, rfl⟩ : ∃ ws, wShape = co :: ws := by
    cases wShape with
    | nil => simp at hco
    | cons x ws =>
      simp only [List.getElem?_cons_zero, Option.some.injEq] at hco
      exact ⟨ws, by rw [hco]⟩
  simp only [List.length_cons, Nat.add_sub_cancel] at hrank hroom
  refine ⟨_, makeDummyOutputDims_eq inShape ws co out_rank hw hout hrank hroom, ?_, by simp⟩
  simp only [List.length_append, List.length_replicate, List.length_take, List.length_singleton]
  omega

/-- Claim C15. For an activation shape of rank `a`, a weight shape of rank `w >= 1` with
`a >= w - 1`, and `out_rank >= (a - (w - 1)) + 1`, makeDummyOutputDims returns a vector of
length `out_rank` whose last element is the first dimension of the weight, whose
`b = a - (w - 1)` elements right before the last are the first `b` dimensions of the
activation in order, and whose remaining leading elements are all 1. -/
theorem makeDummyOutputDims_layout (inShape wShape : VectorDims) (out_rank co : Nat)
    (hco : wShape[0]? = some co)
    (hw : wShape.length < sizeModulus) (hout : out_rank < sizeModulus)
    (hrank : wShape.length - 1 ≤ inShape.length)
    (hroom : (inShape.length - (wShape.length - 1)) + 1 ≤ out_rank) :
    ∃ out, makeDummyOutputDims inShape wShape out_rank = .ok out ∧
      out = List.replicate (out_rank - (inShape.length - (wShape.length - 1)) - 1) 1
            ++ inShape.take (inShape.length - (wShape.length - 1)) ++ [co] ∧
      out.length = out_rank ∧
      out.getLast? = some co ∧
      (∀ i, i < inShape.length - (wShape.length - 1) →
        out[out_rank - 1 - (inShape.length - (wShape.length - 1)) + i]? = inShape[i]?) ∧
      (∀ k, k < out_rank - 1 - (inShape.length - (wShape.length - 1)) → out[k]? = some 1) := by
  obtain ⟨ws, rfl⟩ : ∃ ws, wShape = co :: ws := by
    cases wShape with
    | nil => simp at hco
    | cons x ws =>
      simp only [List.getElem?_cons_zero, Option.some.injEq] at hco
      exact ⟨ws, by rw [hco]⟩
  simp only [List.length_cons, Nat.add_sub_cancel] at hrank hroom ⊢
  refine ⟨_, makeDummyOutputDims_eq inShape ws co out_rank hw hout hrank hroom, rfl, ?_, ?_, ?_, ?_⟩
  · simp only [List.length_append, List.length_replicate, List.length_take, List.length_singleton]
    omega
  · simp
  · intro i hi
    have hlen : (List.replicate (out_rank - (inShape.length - ws.length) - 1) 1).length
        = out_rank - 1 - (inShape.length - ws.length) := by
      simp only [List.length_replicate]
      omega
    rw [List.append_assoc, List.getElem?_append_right (by omega), hlen, Nat.add_sub_cancel_left,
      List.getElem?_append_left (by simp only [List.length_take]; omega), List.getElem?_take,
      if_pos hi]
  · intro k hk
    rw [List.append_assoc, List.getElem?_append_left (by simp only [List.length_replicate]; omega),
      List.getElem?_replicate]
    simp only [ite_eq_left_iff, not_lt, reduceCtorEq, imp_false, not_le]
    omega

/-- Claim C15 at the three layouts named in the source: NCHW with CoCHW gives NCo, TNC with CoC
gives TNCo, and NC with CoC gives NCo. -/
theorem makeDummyOutputDims_layout_witness :
    makeDummyOutputDims [2, 3, 4, 5] [7, 3, 4, 5] 2 = .ok [2, 7]
    ∧ makeDummyOutputDims [9, 2, 3] [7, 3] 3 = .ok [9, 2, 7]
    ∧ makeDummyOutputDims [2, 3] [7, 3] 2 = .ok [2, 7]
    ∧ ∃ out, makeDummyOutputDims [9, 2, 3] [7, 3] 4 = .ok out ∧
      out = List.replicate (4 - ([9, 2, 3].length - ([7, 3].length - 1)) - 1) 1
            ++ [9, 2, 3].take ([9, 2, 3].length - ([7, 3].length - 1)) ++ [7] ∧
      out.length = 4 ∧
      out.getLast? = some 7 ∧
      (∀ i, i < [9, 2, 3].length - ([7, 3].length - 1) →
        out[4 - 1 - ([9, 2, 3].length - ([7, 3].length - 1)) + i]? = [9, 2, 3][i]?) ∧
      (∀ k, k < 4 - 1 - ([9, 2, 3].length - ([7, 3].length - 1)) → out[k]? = some 1) :=
  ⟨rfl, rfl, rfl,
    makeDummyOutputDims_layout [9, 2, 3] [7, 3] 4 7 rfl (by decide) (by decide) (by decide)
      (by decide)⟩

/-- Claim C20, as stated, fails: for an empty activation shape, an empty weight shape and
`out_rank = 2`, outside the precondition, the function reads `wShape[0]` and `inShape[0]` out
of range, while every index it writes at (the last element and `outputShape[0]`) is in
range. -/
theorem makeDummyOutputDims_reads_out_of_range :
    ¬ dummyOutputPrecondition [] [] 2
    ∧ writesInRange [] [] 2
    ∧ ¬ indicesInRange [] [] 2
    ∧ makeDummyOutputDims [] [] 2 = .error .outOfRange := by
  refine ⟨by simp [dummyOutputPrecondition], ⟨by decide, ?_⟩, by simp [indicesInRange], rfl⟩
  intro i hi
  have hb : sizeSub ([] : VectorDims).length (sizeSub ([] : VectorDims).length 1) = 1 := by
    decide
  rw [hb] at hi ⊢
  have hi0 : i = 0 := by omega
  subst hi0
  decide

/-- Claim C20, amended. For vectors and an `out_rank` whose sizes are values of `size_t`,
every index used by makeDummyOutputDims is in range iff `wShape` is non-empty,
`out_rank >= 1`, `inShape.size() >= wShape.size() - 1` and `out_rank >= batchRank + 1`; this
is also exactly when the function returns. Outside that precondition an unsigned subtraction
wraps and an element is read or written out of range, with no check before it; it is a write
whenever `wShape` is non-empty (and `out_rank + wShape.size()` is below `2 ^ 64`), as for
activation rank 3, weight rank 2 and `out_rank = 2`. The dynamic branch of
createShapeAgnosticData hands its arguments on without a check either. -/
theorem makeDummyOutputDims_safety (inShape wShape : VectorDims) (out_rank : Nat)
    (hin : inShape.length < sizeModulus) (hw : wShape.length < sizeModulus)
    (hout : out_rank < sizeModulus) :
    (indicesInRange inShape wShape out_rank ↔ dummyOutputPrecondition inShape wShape out_rank)
    ∧ ((∃ out, makeDummyOutputDims inShape wShape out_rank = .ok out) ↔
        dummyOutputPrecondition inShape wShape out_rank)
    ∧ (¬ dummyOutputPrecondition inShape wShape out_rank →
        subtractionWraps inShape wShape out_rank ∧
        ¬ indicesInRange inShape wShape out_rank ∧
        makeDummyOutputDims inShape wShape out_rank = .error .outOfRange)
    ∧ (¬ dummyOutputPrecondition inShape wShape out_rank → wShape ≠ [] →
        out_rank + wShape.length < sizeModulus → ¬ writesInRange inShape wShape out_rank)
    ∧ (∀ a₀ a₁ a₂ w₀ w₁ : Nat,
        ¬ writesInRange [a₀, a₁, a₂] [w₀, w₁] 2 ∧
        makeDummyOutputDims [a₀, a₁, a₂] [w₀, w₁] 2 = .error .outOfRange)
    ∧ (∀ (dummyVal : Nat) (srcShape weiShape : Shape) (weightDims : VectorDims),
        makeDummyInputDims dummyVal srcShape weiShape = .ok inShape →
        weiShape.getStaticDims = .ok weightDims → weightDims = wShape →
        ¬ dummyOutputPrecondition inShape wShape out_rank →
        dummyDims dummyVal srcShape weiShape out_rank = .error .outOfRange) := by
  have hiff := indicesInRange_iff_precondition inShape wShape out_rank hin hw hout
  have hok := makeDummyOutputDims_isOk_iff inShape wShape out_rank
  have herr : ¬ dummyOutputPrecondition inShape wShape out_rank →
      makeDummyOutputDims inShape wShape out_rank = .error .outOfRange := by
    intro hnot
    apply makeDummyOutputDims_error
    rw [hok, hiff]
    exact hnot
  refine ⟨hiff, hok.trans hiff, ?_, ?_, ?_, ?_⟩
  · intro hnot
    exact ⟨subtractionWraps_of_not_precondition inShape wShape out_rank hin hw hout hnot,
      fun h => hnot (hiff.1 h), herr hnot⟩
  · intro hnot hne hsum
    exact write_out_of_range_of_not_precondition inShape wShape out_rank hin hsum hne hnot
  · intro a₀ a₁ a₂ w₀ w₁
    constructor
    · rintro ⟨_, h⟩
      have h0 := h 0
      simp only [List.length_cons, List.length_nil, sizeSub, sizeModulus] at h0
      omega
    · apply makeDummyOutputDims_error
      rw [makeDummyOutputDims_isOk_iff, indicesInRange_iff_precondition _ _ _
        (by simp [sizeModulus]) (by simp [sizeModulus]) (by simp [sizeModulus])]
      simp [dummyOutputPrecondition]
  · intro dummyVal srcShape weiShape weightDims hinput hwei hwd hnot
    subst hwd
    simp only [dummyDims, bind, Except.bind, hinput, hwei, herr hnot]

/-- Claim C20, amended, at activation rank 3, weight rank 2 and `out_rank = 2`: the input is
outside the precondition, the subtraction `out_rank - batchRank - 1` wraps, and the function
runs into the out-of-range access. -/
theorem makeDummyOutputDims_safety_witness :
    ¬ dummyOutputPrecondition [9, 2, 3] [7, 3] 2
    ∧ (subtractionWraps [9, 2, 3] [7, 3] 2 ∧
        ¬ indicesInRange [9, 2, 3] [7, 3] 2 ∧
        makeDummyOutputDims [9, 2, 3] [7, 3] 2 = .error .outOfRange) :=
  have hnot : ¬ dummyOutputPrecondition [9, 2, 3] [7, 3] 2 := by
    simp [dummyOutputPrecondition]
  ⟨hnot, (makeDummyOutputDims_safety [9, 2, 3] [7, 3] 2 (by decide) (by decide)
    (by decide)).2.2.1 hnot⟩

/-- Claim C14. For an input shape of rank at least 1 and a static weight shape of rank at
least 1 within the ranks that makeDummyOutputDims handles, the dynamic branch of
createShapeAgnosticData synthesizes a dummy input whose last dimension is the last dimension
of the weight shape and a dummy output whose last dimension is the first dimension of the
weight shape; the dummy input keeps the rank of the input and the dummy output has the rank
of the destination. -/
theorem dummy_shapes_consistent (dummyVal : Nat) (inShape wShape : Shape) (dstRank : Nat)
    (first back : Nat)
    (hbounds : inShape.minDims.length = inShape.maxDims.length)
    (hin : inShape.minDims ≠ [])
    (hstatic : wShape.isDynamic = false)
    (hfirst : wShape.minDims[0]? = some first)
    (hback : wShape.minDims.getLast? = some back)
    (hw : wShape.getRank < sizeModulus) (hdst : dstRank < sizeModulus)
    (hrank : wShape.getRank - 1 ≤ inShape.getRank)
    (hroom : (inShape.getRank - (wShape.getRank - 1)) + 1 ≤ dstRank) :
    ∃ inDummy outDummy,
      dummyDims dummyVal inShape wShape dstRank = .ok (inDummy, outDummy) ∧
      inDummy.getLast? = some back ∧ outDummy.getLast? = some first ∧
      inDummy.length = inShape.getRank ∧ outDummy.length = dstRank := by
  obtain ⟨inDummy, hinput, hlast, hlen⟩ :=
    makeDummyInputDims_eq dummyVal inShape wShape hbounds hin hstatic back hback
  have hs : (wShape.minDims != wShape.maxDims) = false := hstatic
  have hwei : wShape.getStaticDims = .ok wShape.minDims := by
    simp [Shape.getStaticDims, Shape.isDynamic, hs]
  simp only [Shape.getRank] at hw hrank hroom ⊢
  rw [← hlen] at hrank hroom
  obtain ⟨outDummy, hout, houtlen, houtlast⟩ :=
    makeDummyOutputDims_ok_last inDummy wShape.minDims dstRank first hfirst hw hdst hrank hroom
  refine ⟨inDummy, outDummy, ?_, hlast, houtlast, hlen, houtlen⟩
  simp only [dummyDims, bind, Except.bind, hinput, hwei, hout]

/-- Claim C14 at weights `[64, 128]` and the input `[*, -1, 128]` with a destination of rank
3: the dummy input is `[64, 64, 128]` and the dummy output `[64, 64, 64]`. -/
theorem dummy_shapes_consistent_witness :
    dummyDims 64 ⟨[0, 0, 128], [18446744073709551615, 18446744073709551615, 128]⟩
      (Shape.ofDims [64, 128]) 3 = .ok ([64, 64, 128], [64, 64, 64])
    ∧ ∃ inDummy outDummy,
      dummyDims 64 ⟨[0, 0, 128], [18446744073709551615, 18446744073709551615, 128]⟩
        (Shape.ofDims [64, 128]) 3 = .ok (inDummy, outDummy) ∧
      inDummy.getLast? = some 128 ∧ outDummy.getLast? = some 64 ∧
      inDummy.length
        = (⟨[0, 0, 128], [18446744073709551615, 18446744073709551615, 128]⟩ : Shape).getRank ∧
      outDummy.length = 3 :=
  ⟨rfl, dummy_shapes_consistent 64
    ⟨[0, 0, 128], [18446744073709551615, 18446744073709551615, 128]⟩ (Shape.ofDims [64, 128]) 3
    64 128 rfl (by decide) rfl rfl rfl (by decide) (by decide) (by decide) (by decide)⟩

/-! ### `createShapeAgnosticData` -/

theorem postOpsComposer_outputDims {PostOps : Type} (attrs : FCAttrs) (postOps : PostOps)
    (memory : MemoryArgs MemoryDesc) (composer : PostOpsComposer PostOps)
    (h : postOpsComposer attrs postOps memory = .ok composer) :
    ∃ dstDesc, memoryAt memory ARG_DST = .ok dstDesc ∧
      normalizeDimsTo2D sizeModulus dstDesc.shape.minDims = .ok composer.outputDims := by
  unfold postOpsComposer at h
  cases hsrc : memoryAt memory ARG_SRC with
  | error e => simp [hsrc, bind, Except.bind] at h
  | ok srcDesc =>
    cases hwei : memoryAt memory ARG_WEI with
    | error e => simp [hsrc, hwei, bind, Except.bind] at h
    | ok weiDesc =>
      cases hdst : memoryAt memory ARG_DST with
      | error e => simp [hsrc, hwei, hdst, bind, Except.bind] at h
      | ok dstDesc =>
        cases hdims : normalizeDimsTo2D sizeModulus dstDesc.shape.minDims with
        | error e => simp [hsrc, hwei, hdst, hdims, bind, Except.bind] at h
        | ok dims =>
          simp only [hsrc, hwei, hdst, hdims, bind, Except.bind, Except.ok.injEq] at h
          subst h
          exact ⟨dstDesc, rfl, hdims⟩

/-- Claim C17, as stated, fails: for a source `[*, -1, 128]`, weights `[64, 128]` and a
destination `[*, -1, 64]` with cached weights, the source is dynamic and the dummy output
shape `[64, 64, 64]` goes to the primitive descriptor request, while the composer gets the
output dims `[0, 64]`, the lower bounds of the original destination normalized to 2D, and
not `[4096, 64]`, the dummy output shape normalized to 2D. -/
theorem composer_gets_original_dims :
    (memoryAt exDynamicMemory ARG_SRC).map (fun desc => desc.shape.isDynamic) = .ok true
    ∧ (createShapeAgnosticData exEnv exAttrs () exDynamicMemory true).map
        (fun data => data.composer.outputDims) = .ok [0, 64]
    ∧ (createShapeAgnosticData exEnv exAttrs () exDynamicMemory true).map
        (fun data => data.primitiveDesc.map (fun request => request.outputDesc.shape))
        = .ok (some (Shape.ofDims [64, 64, 64]))
    ∧ normalizeDimsTo2D sizeModulus [64, 64, 64] = .ok [4096, 64] :=
  ⟨rfl, rfl, rfl, rfl⟩

/-- Claim C17, amended. In createShapeAgnosticData the post-op composition runs once, on the
original memory arguments and before any dummy shape is synthesized: whenever the function
returns, the output dims handed to the composer are the lower bounds of the dims of the
original destination descriptor normalized to 2D, whether or not the source shape is dynamic,
and the returned data holds what the composer composed. When weights are cached and the
source shape is dynamic, the synthesized dummy shapes are those of the source and destination
descriptors of the primitive descriptor request, made with the composed attributes. -/
theorem createShapeAgnosticData_composer {PostOps Fused : Type}
    (env : PrimitiveEnv PostOps Fused) (attrs : FCAttrs) (postOps : PostOps)
    (memory : MemoryArgs MemoryDesc) (cacheWeights : Bool)
    (data : ShapeAgnosticData PostOps Fused)
    (h : createShapeAgnosticData env attrs postOps memory cacheWeights = .ok data) :
    (∃ dstDesc, memoryAt memory ARG_DST = .ok dstDesc ∧
        normalizeDimsTo2D sizeModulus dstDesc.shape.minDims = .ok data.composer.outputDims)
    ∧ postOpsComposer attrs postOps memory = .ok data.composer
    ∧ createPrimitiveAttrs env attrs postOps memory = .ok data.postOpData
    ∧ (cacheWeights = false → data.primitiveDesc = none)
    ∧ (cacheWeights = true →
        ∀ srcDesc, memoryAt memory ARG_SRC = .ok srcDesc → srcDesc.shape.isDynamic = true →
        ∃ weiDesc dstDesc inDummy outDummy request,
          memoryAt memory ARG_WEI = .ok weiDesc ∧ memoryAt memory ARG_DST = .ok dstDesc ∧
          dummyDims env.dummyVal srcDesc.shape weiDesc.shape dstDesc.shape.getRank
            = .ok (inDummy, outDummy) ∧
          data.primitiveDesc = some request ∧
          request.inputDesc = srcDesc.cloneWithNewDims inDummy ∧
          request.outputDesc = dstDesc.cloneWithNewDims outDummy ∧
          request.attr = data.postOpData) := by
  cases hsrc : memoryAt memory ARG_SRC with
  | error e => simp [createShapeAgnosticData, hsrc, bind, Except.bind] at h
  | ok srcDesc =>
    cases hwei : memoryAt memory ARG_WEI with
    | error e => simp [createShapeAgnosticData, hsrc, hwei, bind, Except.bind] at h
    | ok weiDesc =>
      cases hdst : memoryAt memory ARG_DST with
      | error e => simp [createShapeAgnosticData, hsrc, hwei, hdst, bind, Except.bind] at h
      | ok dstDesc =>
        cases hcomp : postOpsComposer attrs postOps memory with
        | error e =>
          simp [createShapeAgnosticData, hsrc, hwei, hdst, hcomp, bind, Except.bind] at h
        | ok composer =>
          have hattrs : createPrimitiveAttrs env attrs postOps memory
              = .ok (env.compose composer) := by
            simp [createPrimitiveAttrs, hcomp, Except.map]
          have hdims := postOpsComposer_outputDims attrs postOps memory composer hcomp
          rw [hdst] at hdims
          have hreq : ∀ request : PrimitiveDescArgs Fused,
              (if env.primitiveDescCreated request = true then
                (Except.ok ⟨composer, env.compose composer, some request⟩ :
                  Except Err (ShapeAgnosticData PostOps Fused))
              else Except.error
                (Err.assertFailed "Failed to create inner_product primitive descriptor"))
                = Except.ok data →
              data = ⟨composer, env.compose composer, some request⟩ := by
            intro request hr
            split at hr
            · exact (Except.ok.inj hr).symm
            · cases hr
          cases cacheWeights with
          | false =>
            simp only [createShapeAgnosticData, hsrc, hwei, hdst, hcomp, bind, Except.bind,
              Bool.not_false, if_true, Except.ok.injEq] at h
            subst h
            exact ⟨hdims, rfl, hattrs, fun _ => rfl, fun hc => absurd hc (by simp)⟩
          | true =>
            cases hdyn : srcDesc.shape.isDynamic with
            | false =>
              cases hbias : memoryAt memory ARG_BIAS with
              | error e =>
                simp [createShapeAgnosticData, hsrc, hwei, hdst, hcomp, hdyn, hbias, bind,
                  Except.bind] at h
              | ok biasMemory =>
                simp only [createShapeAgnosticData, hsrc, hwei, hdst, hcomp, hdyn, hbias, bind,
                  Except.bind, Bool.not_true, Bool.false_eq_true, if_false] at h
                have hdata := hreq _ h
                subst hdata
                refine ⟨hdims, rfl, hattrs, fun hc => absurd hc (by simp), ?_⟩
                intro _ s hs hsdyn
                simp only [Except.ok.injEq] at hs
                subst hs
                rw [hdyn] at hsdyn
                exact absurd hsdyn (by simp)
            | true =>
              cases hdummy : dummyDims env.dummyVal srcDesc.shape weiDesc.shape
                  dstDesc.shape.getRank with
              | error e =>
                simp [createShapeAgnosticData, hsrc, hwei, hdst, hcomp, hdyn, hdummy, bind,
                  Except.bind, Except.map] at h
              | ok dims =>
                cases hbias : memoryAt memory ARG_BIAS with
                | error e =>
                  simp [createShapeAgnosticData, hsrc, hwei, hdst, hcomp, hdyn, hdummy, hbias,
                    bind, Except.bind, Except.map] at h
                | ok biasMemory =>
                  simp only [createShapeAgnosticData, hsrc, hwei, hdst, hcomp, hdyn, hdummy,
                    hbias, bind, Except.bind, Except.map, Bool.not_true, Bool.false_eq_true,
                    if_false, if_true] at h
                  have hdata := hreq _ h
                  subst hdata
                  refine ⟨hdims, rfl, hattrs, fun hc => absurd hc (by simp), ?_⟩
                  intro _ s hs _
                  simp only [Except.ok.injEq] at hs
                  subst hs
                  exact ⟨weiDesc, dstDesc, dims.1, dims.2, _, rfl, rfl, hdummy, rfl, rfl, rfl,
                    rfl⟩

/-- Claim C17, amended, at the source `[*, -1, 128]`: the composer gets `[0, 64]`, the
original destination bounds normalized to 2D. -/
theorem createShapeAgnosticData_composer_witness :
    (createShapeAgnosticData exEnv exAttrs () exDynamicMemory true).map
        (fun data => data.composer.outputDims) = .ok [0, 64]
    ∧ ∃ data, createShapeAgnosticData exEnv exAttrs () exDynamicMemory true = .ok data ∧
        ∃ dstDesc, memoryAt exDynamicMemory ARG_DST = .ok dstDesc ∧
          normalizeDimsTo2D sizeModulus dstDesc.shape.minDims = .ok data.composer.outputDims :=
  ⟨rfl, match hdata : createShapeAgnosticData exEnv exAttrs () exDynamicMemory true with
    | .ok data => ⟨data, rfl,
        (createShapeAgnosticData_composer exEnv exAttrs () exDynamicMemory true data hdata).1⟩
    | .error e => absurd hdata (by
        have hok : (createShapeAgnosticData exEnv exAttrs () exDynamicMemory true).map
            (fun data => data.composer.outputDims) = .ok [0, 64] := rfl
        intro herr
        rw [herr] at hok
        cases hok)⟩

/-! ### `normalizeDimsTo2D` and `normalizeDescriptor` -/

theorem foldl_mul_mod (modulus : Nat) (dims : List Nat) :
    ∀ acc : Nat, dims.foldl (fun acc dim => (acc * dim) % modulus) (acc % modulus)
      = (acc * dims.prod) % modulus := by
  induction dims with
  | nil =>
    intro acc
    simp
  | cons x xs ih =>
    intro acc
    simp only [List.foldl_cons, List.prod_cons]
    rw [ih (acc % modulus * x), Nat.mul_assoc]
    exact Nat.mod_mul_mod

theorem normalizeDimsTo2D_eq (modulus : Nat) (dims : List Nat) (last : Nat)
    (hlast : dims.getLast? = some last) :
    normalizeDimsTo2D modulus dims = .ok [dims.dropLast.prod % modulus, last] := by
  unfold normalizeDimsTo2D
  rw [hlast]
  simp only
  rw [foldl_mul_mod modulus dims.dropLast 1, Nat.one_mul]

theorem wrapInt64_of_inRange (value : Int)
    (hlo : -9223372036854775808 ≤ value) (hhi : value < 9223372036854775808) :
    wrapInt64 value = value := by
  unfold wrapInt64
  omega

theorem wrapInt64_inRange (value : Int) :
    -9223372036854775808 ≤ wrapInt64 value ∧ wrapInt64 value < 9223372036854775808 := by
  unfold wrapInt64
  omega

theorem wrapInt64_emod (value : Int) :
    wrapInt64 value % 18446744073709551616 = value % 18446744073709551616 := by
  unfold wrapInt64
  omega

theorem wrapInt64_congr (a b : Int)
    (h : a % 18446744073709551616 = b % 18446744073709551616) :
    wrapInt64 a = wrapInt64 b := by
  unfold wrapInt64
  omega

theorem wrapInt64_mul_left (a b : Int) : wrapInt64 (wrapInt64 a * b) = wrapInt64 (a * b) := by
  apply wrapInt64_congr
  rw [Int.mul_emod, wrapInt64_emod, ← Int.mul_emod]

theorem foldl_mulInt64 (dims : List Int) :
    ∀ acc : Int, dims.foldl mulInt64 (wrapInt64 acc) = wrapInt64 (acc * dims.prod) := by
  induction dims with
  | nil =>
    intro acc
    simp
  | cons x xs ih =>
    intro acc
    simp only [List.foldl_cons, List.prod_cons, mulInt64]
    rw [ih (wrapInt64 acc * x), Int.mul_assoc, wrapInt64_mul_left]

theorem normalizeDimsTo2DInt64_eq (dims : List Int) (last : Int)
    (hlast : dims.getLast? = some last) :
    normalizeDimsTo2DInt64 dims = .ok [wrapInt64 dims.dropLast.prod, last] := by
  unfold normalizeDimsTo2DInt64
  rw [hlast]
  simp only
  have h := foldl_mulInt64 dims.dropLast 1
  rw [wrapInt64_of_inRange 1 (by decide) (by decide), Int.one_mul] at h
  rw [h]

/-- Claim C21. For every non-empty dims vector, normalizeDimsTo2D returns exactly two
elements `[p, l]`, where `l` is the last element of dims and `p` is the product of all the
other elements in the arithmetic of the element type: for an unsigned type the product modulo
the number of its values, for the signed `dnnl::memory::dim` the two's-complement value of
the product on 64 bits; in both cases the product itself when it is in range, and 1 when dims
has a single element. The product of the result equals the product of dims modulo `2 ^ w`,
and normalizeDimsTo2D applied to its own result returns that result unchanged.
normalizeDescriptor returns a descriptor of rank at most 2 unchanged and reshapes a
descriptor of rank greater than 2, and no other, to its normalized dims. -/
theorem normalizeDimsTo2D_contract (modulus : Nat) (dims : List Nat) (hne : dims ≠ []) :
    (∃ p l, normalizeDimsTo2D modulus dims = .ok [p, l] ∧
        dims.getLast? = some l ∧
        p = dims.dropLast.prod % modulus ∧
        (dims.dropLast.prod < modulus → p = dims.dropLast.prod) ∧
        (dims.length = 1 → 2 ≤ modulus → p = 1) ∧
        [p, l].prod % modulus = dims.prod % modulus ∧
        normalizeDimsTo2D modulus [p, l] = .ok [p, l])
    ∧ (∀ (sdims : List Int) (_ : sdims ≠ []),
        ∃ p l, normalizeDimsTo2DInt64 sdims = .ok [p, l] ∧
          sdims.getLast? = some l ∧
          p = wrapInt64 sdims.dropLast.prod ∧
          (-9223372036854775808 ≤ p ∧ p < 9223372036854775808) ∧
          (-9223372036854775808 ≤ sdims.dropLast.prod →
            sdims.dropLast.prod < 9223372036854775808 → p = sdims.dropLast.prod) ∧
          (sdims.length = 1 → p = 1) ∧
          [p, l].prod % 18446744073709551616 = sdims.prod % 18446744073709551616 ∧
          normalizeDimsTo2DInt64 [p, l] = .ok [p, l])
    ∧ (∀ (Desc : Type) (get_dims : Desc → List Int)
        (reshape : Desc → List Int → Except Err Desc) (desc : Desc),
        (get_dims desc).length ≤ 2 →
        normalizeDescriptor get_dims reshape desc = .ok desc)
    ∧ (∀ (Desc : Type) (get_dims : Desc → List Int)
        (reshape : Desc → List Int → Except Err Desc) (desc : Desc)
        (hrank : 2 < (get_dims desc).length),
        normalizeDescriptor get_dims reshape desc
          = reshape desc [wrapInt64 (get_dims desc).dropLast.prod,
              (get_dims desc).getLast (List.ne_nil_of_length_pos (by omega))]) := by
  have hlast : dims.getLast? = some (dims.getLast hne) := List.getLast?_eq_getLast _ hne
  have hnorm := normalizeDimsTo2D_eq modulus dims (dims.getLast hne) hlast
  refine ⟨⟨dims.dropLast.prod % modulus, dims.getLast hne, hnorm, hlast, rfl, ?_, ?_, ?_, ?_⟩,
    ?_, ?_, ?_⟩
  · intro hlt
    exact Nat.mod_eq_of_lt hlt
  · intro hone hmod
    obtain ⟨x, hx⟩ := List.length_eq_one.1 hone
    rw [hx]
    simp only [List.dropLast_single, List.prod_nil]
    exact Nat.mod_eq_of_lt (by omega)
  · have hsplit := List.dropLast_append_getLast hne
    have hprod : dims.prod = dims.dropLast.prod * dims.getLast hne := by
      conv_lhs => rw [← hsplit]
      simp
    rw [hprod]
    simp only [List.prod_cons, List.prod_nil, Nat.mul_one]
    exact Nat.mod_mul_mod
  · rw [normalizeDimsTo2D_eq modulus [dims.dropLast.prod % modulus, dims.getLast hne]
      (dims.getLast hne) rfl]
    simp
  · intro sdims hsne
    have hslast : sdims.getLast? = some (sdims.getLast hsne) :=
      List.getLast?_eq_getLast _ hsne
    have hrange := wrapInt64_inRange sdims.dropLast.prod
    refine ⟨wrapInt64 sdims.dropLast.prod, sdims.getLast hsne,
      normalizeDimsTo2DInt64_eq sdims _ hslast, hslast, rfl, hrange, ?_, ?_, ?_, ?_⟩
    · intro hlo hhi
      exact wrapInt64_of_inRange _ hlo hhi
    · intro hone
      obtain ⟨x, hx⟩ := List.length_eq_one.1 hone
      rw [hx]
      simp only [List.dropLast_single, List.prod_nil]
      exact wrapInt64_of_inRange 1 (by decide) (by decide)
    · have hsplit := List.dropLast_append_getLast hsne
      have hprod : sdims.prod = sdims.dropLast.prod * sdims.getLast hsne := by
        conv_lhs => rw [← hsplit]
        simp
      rw [hprod]
      simp only [List.prod_cons, List.prod_nil, Int.mul_one]
      rw [Int.mul_emod, wrapInt64_emod, ← Int.mul_emod]
    · rw [normalizeDimsTo2DInt64_eq [wrapInt64 sdims.dropLast.prod, sdims.getLast hsne]
        (sdims.getLast hsne) rfl]
      simp only [List.dropLast_cons₂, List.dropLast_single, List.prod_cons, List.prod_nil,
        Int.mul_one]
      rw [wrapInt64_of_inRange _ hrange.1 hrange.2]
  · intro Desc get_dims reshape desc hrank
    unfold normalizeDescriptor
    simp only
    rw [if_neg (by omega)]
  · intro Desc get_dims reshape desc hrank
    have hdne : get_dims desc ≠ [] := List.ne_nil_of_length_pos (by omega)
    have hdlast : (get_dims desc).getLast? = some ((get_dims desc).getLast hdne) :=
      List.getLast?_eq_getLast _ hdne
    unfold normalizeDescriptor
    simp only [gt_iff_lt, hrank, if_true, normalizeDimsTo2DInt64_eq _ _ hdlast]

/-- Claim C21 at the dims `[2, 3, 4, 5]`: the result is `[24, 5]`, which normalizeDimsTo2D
leaves as it is, and a descriptor of rank 4 is reshaped to it while one of rank 2 is returned
unchanged; at the dims `[3037000500, 3037000500, 5]` of a descriptor the product leaves the
range of `int64_t` and the descriptor is reshaped to `[-9223372036709301616, 5]`. -/
theorem normalizeDimsTo2D_contract_witness :
    normalizeDimsTo2D sizeModulus [2, 3, 4, 5] = .ok [24, 5]
    ∧ normalizeDimsTo2D sizeModulus [24, 5] = .ok [24, 5]
    ∧ normalizeDimsTo2D sizeModulus [7] = .ok [1, 7]
    ∧ normalizeDescriptor ExDnnlDesc.dims exReshape ⟨3, [64, 128]⟩ = .ok ⟨3, [64, 128]⟩
    ∧ normalizeDescriptor ExDnnlDesc.dims exReshape ⟨3, [2, 3, 4, 5]⟩ = .ok ⟨3, [24, 5]⟩
    ∧ normalizeDescriptor ExDnnlDesc.dims exReshape ⟨3, [3037000500, 3037000500, 5]⟩
        = .ok ⟨3, [-9223372036709301616, 5]⟩
    ∧ normalizeDescriptor ExDnnlDesc.dims exReshape ⟨3, [3037000500, 3037000500, 5]⟩
        = exReshape ⟨3, [3037000500, 3037000500, 5]⟩
            [wrapInt64 (ExDnnlDesc.dims ⟨3, [3037000500, 3037000500, 5]⟩).dropLast.prod,
              (ExDnnlDesc.dims ⟨3, [3037000500, 3037000500, 5]⟩).getLast
                (List.ne_nil_of_length_pos (by decide))] :=
  ⟨rfl, rfl, rfl, rfl, rfl, rfl,
    (normalizeDimsTo2D_contract sizeModulus [2, 3, 4, 5] (List.cons_ne_nil 2 [3, 4, 5])).2.2.2
      ExDnnlDesc ExDnnlDesc.dims exReshape ⟨3, [3037000500, 3037000500, 5]⟩ (by decide)⟩

end PrimitiveTheorems

end ov.intel_cpu
